import Mathlib

/-!
ACL push rendering (`al_render.go`)

A shallow embedding of `loadACL`, `configHandler` and `PreparePush` from
`src/al_render.go`, followed by theorems about them.

Modelling conventions.

* Go strings are Lean `String`s; the pointer-valued protobuf fields that the
  code dereferences unconditionally (`*item.Data`, `*tag.Type`, ...) are plain
  fields, the only optional field being `IpVersion`, which the code tests
  against `nil`.
* `int32` has no arithmetic here, so it is an `Int`.
* A Go `map[string]T` is an association list with distinct keys (`GoMap`).
  The order in which `range` visits a map is unspecified in Go; it is a
  parameter of the model (`rangeOrder`).
* A run-time panic (index out of range, `template.Must`) is the result `none`.
* The compiled template is a function from the fragment to the text it writes
  into the buffer and the error it returns, if any. Where the addresses of the
  fragment matter (repeated calls), the fragment is passed with its addresses
  (`aclPtr`, `PtrTemplate`, `PreparePushPtr`), which are a parameter of the call.
-/

namespace Render

/-! ## Data model -/

/-- The Go `error` values of the model: the message of the error. -/
abbrev Error := String

/-- Interface and direction info (`intfDir`). -/
structure intfDir where
  Intf : String
  Direction : String
deriving DecidableEq

/-- The data for template execution (`acl`). -/
structure acl where
  Name : String
  IPVersion : Int
  Data : String
  IntfDirection : List intfDir
deriving DecidableEq

/-- A tag of an enforcement point (`spb.ACLEnforcementPoint_Tag`); the field
`Type` of the source is `Type_` here. -/
structure ACLEnforcementPoint_Tag where
  Type_ : String
  Value : String
deriving DecidableEq

/-- A unit of an enforcement point (`spb.ACLEnforcementPoint_ACLEnforcementUnit`). -/
structure ACLEnforcementPoint_ACLEnforcementUnit where
  Name : String
  Direction : String
deriving DecidableEq

/-- An enforcement point (`spb.ACLEnforcementPoint`). -/
structure ACLEnforcementPoint where
  DeviceName : String
  Units : List ACLEnforcementPoint_ACLEnforcementUnit
  Tags : List ACLEnforcementPoint_Tag
deriving DecidableEq

/-- A push item (`spb.ACLPushItem`). -/
structure ACLPushItem where
  EnforcePoint : List ACLEnforcementPoint
  AclName : String
  IpVersion : Option Int
  Vendor : String
  Data : String
deriving DecidableEq

/-! ## The Go library functions the code calls -/

/-- The segments of `strings.Split(s, sep)` for a one-character separator, on
the characters of `s`: one more segment than there are separators. -/
def splitChars (sep : Char) : List Char → List (List Char)
  | [] => [[]]
  | c :: cs =>
    if c = sep then [] :: splitChars sep cs
    else
      match splitChars sep cs with
      | [] => [[c]]
      | seg :: segs => (c :: seg) :: segs

/-- Go `strings.Split(s, sep)` for a one-character separator. -/
def Split (s : String) (sep : Char) : List String :=
  (splitChars sep s.data).map String.mk

/-- The scan of `strings.Replace(s, old, new, -1)` for a non-empty `old`: the
text is read left to right, `skip` being the number of characters of a matched
occurrence still to be dropped; at a position where `old` starts, `new` is
written and the occurrence is skipped, so that occurrences do not overlap. -/
def replaceScan (old new : List Char) : Nat → List Char → List Char
  | _, [] => []
  | skip + 1, _ :: cs => replaceScan old new skip cs
  | 0, c :: cs =>
    if old.isPrefixOf (c :: cs) then new ++ replaceScan old new (old.length - 1) cs
    else c :: replaceScan old new 0 cs

/-- Go `strings.Replace(s, old, new, -1)`: every non-overlapping occurrence of
`old`, found left to right, is replaced by `new`; an empty `old` matches before
every character and at the end. -/
def Replace (s old new : String) : String :=
  if old = new then s
  else if old.data = [] then String.mk (new.data ++ s.data.flatMap (fun c => c :: new.data))
  else String.mk (replaceScan old.data new.data 0 s.data)

/-! ## Go maps -/

/-- A Go `map[string]β`: the entries, with distinct keys. -/
abbrev GoMap (β : Type) := List (String × β)

/-- The two-valued lookup `v, ok := m[k]`. -/
def GoMap.get? {β : Type} : GoMap β → String → Option β
  | [], _ => none
  | (k', v) :: rest, k => if k' = k then some v else GoMap.get? rest k

/-- The lookup `m[k]`, which is the zero value of the type for a missing key. -/
def GoMap.getD {β : Type} (m : GoMap β) (k : String) (zero : β) : β :=
  (GoMap.get? m k).getD zero

/-- The assignment `m[k] = v`. -/
def GoMap.set {β : Type} : GoMap β → String → β → GoMap β
  | [], k, v => [(k, v)]
  | (k', v') :: rest, k, v =>
    if k' = k then (k, v) :: rest else (k', v') :: GoMap.set rest k v

/-- The keys of a map. -/
def GoMap.keys {β : Type} (m : GoMap β) : List String :=
  m.map Prod.fst

/-- An order in which `range` visits a collection, chosen by a seed: the rest
of the collection is ordered with the rest of the seed, and the first element is
put at position `s % (length + 1)` of it, for the first number `s` of the seed.
Every seed gives a permutation, and every permutation comes from a seed. -/
def rangeOrder {α : Type} : List Nat → List α → List α
  | _, [] => []
  | [], x :: xs => x :: xs
  | s :: seed, x :: xs =>
    let rest := rangeOrder seed xs
    rest.take (s % (rest.length + 1)) ++ x :: rest.drop (s % (rest.length + 1))

/-! ## `loadACL` -/

/-- The three maps `loadACL` builds. -/
structure ACLMaps where
  canaryMap : GoMap (List acl)
  globalMap : GoMap (List acl)
  vendorMap : GoMap String
deriving DecidableEq

/-- The loop over the tags of an enforcement point (lines 66-72): `canary`
becomes true at the first tag of type "Canary" and value "True". -/
def tagsCanary : List ACLEnforcementPoint_Tag → Bool
  | [] => false
  | tag :: rest =>
    if tag.Type_ = "Canary" ∧ tag.Value = "True" then true else tagsCanary rest

/-- The loop over the units of an enforcement point (lines 74-77), on the
slice `intfs`: each unit appends its name and direction. -/
def unitLoop : List ACLEnforcementPoint_ACLEnforcementUnit → List intfDir → List intfDir
  | [], intfs => intfs
  | unit :: rest, intfs =>
    unitLoop rest (intfs ++ [{ Intf := unit.Name, Direction := unit.Direction }])

/-- The slice `intfs` of an enforcement point (lines 73-77): the loop over the
units, started on the empty slice. -/
def unitIntfs (units : List ACLEnforcementPoint_ACLEnforcementUnit) : List intfDir :=
  unitLoop units []

/-- The body of the loop over the enforcement points of an item (lines 64-82). -/
def pointStep (aclName : String) (ipVer : Int) (aclData vendor : String)
    (m : ACLMaps) (enforcePoint : ACLEnforcementPoint) : ACLMaps :=
  let deviceName := enforcePoint.DeviceName
  let vendorMap := GoMap.set m.vendorMap deviceName vendor
  let canary := tagsCanary enforcePoint.Tags
  let intfs := unitIntfs enforcePoint.Units
  let frag : acl :=
    { Name := aclName, IPVersion := ipVer, Data := aclData, IntfDirection := intfs }
  if canary then
    { canaryMap := GoMap.set m.canaryMap deviceName (GoMap.getD m.canaryMap deviceName [] ++ [frag])
      globalMap := m.globalMap
      vendorMap := vendorMap }
  else
    { canaryMap := m.canaryMap
      globalMap := GoMap.set m.globalMap deviceName (GoMap.getD m.globalMap deviceName [] ++ [frag])
      vendorMap := vendorMap }

/-- The name under which the fragments of an item are stored (lines 55-59):
for the vendor "cisco" the segment of index 2 of the name split at ".", which
panics when there are fewer than three segments. -/
def itemName (item : ACLPushItem) : Option String :=
  if item.Vendor = "cisco" then (Split item.AclName '.')[2]? else some item.AclName

/-- The value of `ipVer` after lines 60-62: the variable is declared outside
the loop and assigned only when the item has an IP version. -/
def itemIpVer (ipVer : Int) (item : ACLPushItem) : Int :=
  match item.IpVersion with
  | some v => v
  | none => ipVer

/-- The body of the loop over the items (lines 54-83), on the maps and the
variable `ipVer`. -/
def itemStep (st : ACLMaps × Int) (item : ACLPushItem) : Option (ACLMaps × Int) :=
  match itemName item with
  | none => none
  | some aclName =>
    let ipVer := itemIpVer st.2 item
    some (item.EnforcePoint.foldl (pointStep aclName ipVer item.Data item.Vendor) st.1, ipVer)

/-- The loop over the items (lines 53-84). -/
def loadLoop : ACLMaps × Int → List ACLPushItem → Option (ACLMaps × Int)
  | st, [] => some st
  | st, item :: rest =>
    match itemStep st item with
    | none => none
    | some st' => loadLoop st' rest

/-- `loadACL` parses the push items into the canary map, the global map and the
vendor map; `none` is the panic of line 58. -/
def loadACL (pushPb : List ACLPushItem) :
    Option (GoMap (List acl) × GoMap (List acl) × GoMap String) :=
  match loadLoop ({ canaryMap := [], globalMap := [], vendorMap := [] }, 0) pushPb with
  | none => none
  | some st => some (st.1.canaryMap, st.1.globalMap, st.1.vendorMap)

/-! ## `configHandler` -/

/-- A parsed template (`*template.Template`): what `ExecuteTemplate(b, name, data)`
does for the template called `name` on `data`, namely the text it writes into
the buffer `b` and the error it returns (`none` is `nil`). A failing execution
may have written part of its output. The fragment is passed by value here; the
addresses of the `acl` and of its `intfDir` entries, which a template can also
print, are in `PtrTemplate`. -/
structure Template where
  ExecuteTemplate : String → acl → String × Option Error

/-- The loop of lines 114-118 on the buffer `b`, with the list of the
fragments on which the template has been executed so far: the error of the
first failing execution, at which the function returns, or the final buffer. -/
def ciscoLoop (aclTmpl : Template) : List acl → String → List acl → Except Error String × List acl
  | [], b, executed => (Except.ok b, executed)
  | data :: rest, b, executed =>
    match aclTmpl.ExecuteTemplate "layout" data with
    | (_, some err) => (Except.error err, executed ++ [data])
    | (out, none) => ciscoLoop aclTmpl rest (b ++ out) (executed ++ [data])

/-- The loop of lines 122-124 on the buffer `b`. -/
def juniperLoop : List acl → String → String
  | [], b => b
  | data :: rest, b => juniperLoop rest (b ++ data.Data)

/-- The body of `configHandler`, returning next to the config and the error
the list of the fragments on which the template was executed, in order. -/
def configHandlerRun (vendor : String) (aclData : List acl) (aclTmpl : Template) :
    (String × Option Error) × List acl :=
  if vendor = "cisco" then
    match ciscoLoop aclTmpl aclData "" [] with
    | (Except.error err, executed) => (("", some err), executed)
    | (Except.ok b, executed) => ((Replace b "\nexit" "", none), executed)
  else if vendor = "juniper" then
    ((juniperLoop aclData "", none), [])
  else
    (("", none), [])

/-- `configHandler` renders template, returns acl config as string. -/
def configHandler (vendor : String) (aclData : List acl) (aclTmpl : Template) :
    String × Option Error :=
  (configHandlerRun vendor aclData aclTmpl).1

/-! ## `PreparePush` -/

/-- `loadTemplate` returns the parsed template of the file `templateName + ".tmpl"`
of the template directory; `parseFiles` is the outcome of `template.ParseFiles`
on a file of that directory, and `none` is the panic of `template.Must` when
the file cannot be parsed. -/
def loadTemplate (parseFiles : String → Option Template) (templateName : String) :
    Option Template :=
  parseFiles (templateName ++ ".tmpl")

/-- The body of the loop over the devices of a bucket (lines 99-102), on the
map `deviceACL` and the list `errs`. -/
def deviceStep (vendorMap : GoMap String) (aclMap : GoMap (List acl)) (aclTmpl : Template)
    (st : GoMap String × List Error) (dev : String) : GoMap String × List Error :=
  let r := configHandler (GoMap.getD vendorMap dev "") (GoMap.getD aclMap dev []) aclTmpl
  let deviceACL := GoMap.set st.1 dev r.1
  match r.2 with
  | some err => (deviceACL, st.2 ++ [err])
  | none => (deviceACL, st.2)

/-- The body of the loop over the two buckets (lines 97-104), on `results` and
`errs`; `order idx` is the seed of the order in which the devices of bucket
`idx` are visited. -/
def ringStep (vendorMap : GoMap String) (aclMaps : List (GoMap (List acl))) (aclTmpl : Template)
    (order : Nat → List Nat) (st : List (GoMap String) × List Error) (idx : Nat) :
    List (GoMap String) × List Error :=
  let aclMap := aclMaps.getD idx []
  let r := (rangeOrder (order idx) (GoMap.keys aclMap)).foldl
    (deviceStep vendorMap aclMap aclTmpl) ([], st.2)
  (st.1.set idx r.1, r.2)

/-- `PreparePush` returns canary and global acl map keyed on device name, and
the list of the render errors; `none` is a panic, of `loadACL` or of
`loadTemplate`. -/
def PreparePush (parseFiles : String → Option Template) (order : Nat → List Nat)
    (pushPb : List ACLPushItem) : Option (List (GoMap String) × List Error) :=
  match loadACL pushPb with
  | none => none
  | some (canaryMap, globalMap, vendorMap) =>
    match loadTemplate parseFiles "cisco_acl" with
    | none => none
    | some ciscoACLTmpl =>
      let aclMaps := [canaryMap, globalMap]
      some ((List.range aclMaps.length).foldl
        (ringStep vendorMap aclMaps ciscoACLTmpl order) ([[], []], []))

/-! ## Reference notions of the specification -/

/-- The point has some tag whose type is exactly "Canary" and whose value is
exactly "True", both on the same tag. -/
def hasCanaryTag (tags : List ACLEnforcementPoint_Tag) : Prop :=
  ∃ tag ∈ tags, tag.Type_ = "Canary" ∧ tag.Value = "True"

instance hasCanaryTagDecidable (tags : List ACLEnforcementPoint_Tag) :
    Decidable (hasCanaryTag tags) := by
  unfold hasCanaryTag
  infer_instance

/-- The (item, enforcement point) pairs of a list of push items in input order:
item order, then the order of the points within an item. Each pair comes with
the IP version in force at its item, `ipVer` being the one in force before the
first item. -/
def pointPairs (ipVer : Int) : List ACLPushItem → List (ACLPushItem × ACLEnforcementPoint × Int)
  | [] => []
  | item :: rest =>
    item.EnforcePoint.map (fun ep => (item, ep, itemIpVer ipVer item))
      ++ pointPairs (itemIpVer ipVer item) rest

/-- The fragment of an (item, enforcement point) pair: the name of the item
(for "cisco" the segment of index 2), the IP version in force, the raw data of
the item and the (interface, direction) list of the units of the point. -/
def pairFragment (p : ACLPushItem × ACLEnforcementPoint × Int) : acl :=
  { Name := (itemName p.1).getD "", IPVersion := p.2.2, Data := p.1.Data,
    IntfDirection := unitIntfs p.2.1.Units }

/-- The point names the device `d` and belongs to the ring `ring` (`true` is
the canary ring, `false` the global ring). -/
def pointIn (d : String) (ring : Bool) (ep : ACLEnforcementPoint) : Bool :=
  decide (ep.DeviceName = d) && (decide (hasCanaryTag ep.Tags) == ring)

/-- The point of the pair names the device `d` and belongs to the ring `ring`. -/
def pairIn (d : String) (ring : Bool) (p : ACLPushItem × ACLEnforcementPoint × Int) : Bool :=
  pointIn d ring p.2.1

/-- All enforcement points of a list of push items, in input order. -/
def allPoints (pushPb : List ACLPushItem) : List ACLEnforcementPoint :=
  pushPb.flatMap (fun item => item.EnforcePoint)

/-- The number of fragments stored in a bucket: the summed lengths of its lists. -/
def totalLen (m : GoMap (List acl)) : Nat :=
  (m.map (fun e => e.2.length)).sum

/-- The same push item with the tags of each enforcement point replaced. -/
def retagItem (retag : ACLEnforcementPoint → List ACLEnforcementPoint_Tag)
    (item : ACLPushItem) : ACLPushItem :=
  { item with EnforcePoint := item.EnforcePoint.map (fun ep => { ep with Tags := retag ep }) }

/-- The bucket of a ring: `true` is the canary map, `false` the global map. -/
def bucket (m : ACLMaps) (ring : Bool) : GoMap (List acl) :=
  if ring then m.canaryMap else m.globalMap

/-- The effect of one (item, enforcement point) pair on the maps. -/
def placePair (m : ACLMaps) (p : ACLPushItem × ACLEnforcementPoint × Int) : ACLMaps :=
  pointStep ((itemName p.1).getD "") p.2.2 p.1.Data p.1.Vendor m p.2.1

/-- The maps of `loadACL` before the first item. -/
def emptyMaps : ACLMaps :=
  { canaryMap := [], globalMap := [], vendorMap := [] }

/-! ## The inputs of the test `TestPreparePush` -/

/-- The push items `aclPushPb` of `al_rendr_test.go`. -/
def aclPushPb : List ACLPushItem :=
  [ { EnforcePoint :=
        [ { DeviceName := "ussvl2-1", Units := [],
            Tags := [{ Type_ := "Region", Value := "AMER" }] } ],
      AclName := ".acl.", IpVersion := some 4, Vendor := "cisco",
      Data := "no ip access-list extended \nip access-list extended \n" },
    { EnforcePoint :=
        [ { DeviceName := "jp-t1", Units := [{ Name := "Vlan86", Direction := "out" }],
            Tags := [{ Type_ := "Region", Value := "APAC" },
                     { Type_ := "Canary", Value := "True" }] } ],
      AclName := "go_out", IpVersion := some 4, Vendor := "cisco",
      Data := "no ip access-\n" },
    { EnforcePoint :=
        [ { DeviceName := "jp1", Units := [{ Name := "Vlan86", Direction := "in" }],
            Tags := [{ Type_ := "Region", Value := "APAC" },
                     { Type_ := "Canary", Value := "True" }] } ],
      AclName := "n", IpVersion := some 4, Vendor := "cisco",
      Data := "no ip access\n" },
    { EnforcePoint :=
        [ { DeviceName := "us1",
            Units := [{ Name := "Vlan75", Direction := "in" },
                      { Name := "Vlan75", Direction := "out" }],
            Tags := [{ Type_ := "Region", Value := "AMER" }] } ],
      AclName := "v3in", IpVersion := some 4, Vendor := "cisco",
      Data := "no ip access-list extended goon\n" },
    { EnforcePoint :=
        [ { DeviceName := "us-tv", Units := [],
            Tags := [{ Type_ := "Region", Value := "AMER" }] },
          { DeviceName := "utv", Units := [],
            Tags := [{ Type_ := "Region", Value := "AMER" }] },
          { DeviceName := "us-.mtv", Units := [],
            Tags := [{ Type_ := "Region", Value := "AMER" }] } ],
      AclName := "jcl", IpVersion := none, Vendor := "juniper",
      Data := "firewall \x7b\n    family inet \x7b\n        test juniper\n    \x7d\n\x7d\n" },
    { EnforcePoint :=
        [ { DeviceName := ".mtv", Units := [],
            Tags := [{ Type_ := "Region", Value := "AMER" }] } ],
      AclName := "u.srx", IpVersion := none, Vendor := "juniper",
      Data := "security \x7b\n    replace: policies \x7b\n        test srx\n    \x7d\n\x7d\n" } ]

/-- A push of two items on the devices "r1" and "r2": "r1" has a point with the
canary tag and a point without it in the first item, and a point of the second
item, whose vendor differs. -/
def mixedPush : List ACLPushItem :=
  [ { EnforcePoint :=
        [ { DeviceName := "r1", Units := [{ Name := "Vlan75", Direction := "in" }],
            Tags := [{ Type_ := "Region", Value := "AMER" },
                     { Type_ := "Canary", Value := "True" }] },
          { DeviceName := "r1", Units := [],
            Tags := [{ Type_ := "Canary", Value := "False" }] },
          { DeviceName := "r2", Units := [], Tags := [] } ],
      AclName := "a.b.edge", IpVersion := some 4, Vendor := "cisco",
      Data := "permit ip any any\n" },
    { EnforcePoint :=
        [ { DeviceName := "r1", Units := [], Tags := [] },
          { DeviceName := "r1", Units := [], Tags := [] } ],
      AclName := "jcl", IpVersion := none, Vendor := "juniper",
      Data := "firewall \x7b\x7d\n" } ]

/-- The fragment of the cisco item of `mixedPush` on a point with the given
(interface, direction) list. -/
def edgeFrag (intfs : List intfDir) : acl :=
  { Name := "edge", IPVersion := 4, Data := "permit ip any any\n", IntfDirection := intfs }

/-- The fragment of the juniper item of `mixedPush`; its IP version is the one
left by the cisco item before it. -/
def jclFrag : acl :=
  { Name := "jcl", IPVersion := 4, Data := "firewall \x7b\x7d\n", IntfDirection := [] }

/-- The maps of `loadACL` on `mixedPush`: the canary map. -/
def mixedCanary : GoMap (List acl) :=
  [("r1", [edgeFrag [{ Intf := "Vlan75", Direction := "in" }]])]

/-- The maps of `loadACL` on `mixedPush`: the global map. -/
def mixedGlobal : GoMap (List acl) :=
  [("r1", [edgeFrag [], jclFrag, jclFrag]), ("r2", [edgeFrag []])]

/-- The maps of `loadACL` on `mixedPush`: the vendor map. -/
def mixedVendor : GoMap String :=
  [("r1", "juniper"), ("r2", "cisco")]

/-- The text the template writes for the fragments of a list, in list order. -/
def templateOutput (aclTmpl : Template) (aclData : List acl) : String :=
  String.join (aclData.map (fun data => (aclTmpl.ExecuteTemplate "layout" data).1))

/-- A template that writes a header line, the data of the fragment and a line
"exit", and fails on a fragment whose name is empty. -/
def lineTemplate : Template :=
  { ExecuteTemplate := fun name data =>
      if name = "layout" then
        if data.Name = "" then ("ip access-list ", some "empty name")
        else ("ip access-list " ++ data.Name ++ "\n" ++ data.Data ++ "exit\n", none)
      else ("", some "no such template") }

/-- The text `sub` occurs in the text `s`. -/
def containsText (s sub : String) : Prop :=
  sub.data <:+: s.data

instance containsTextDecidable (s sub : String) : Decidable (containsText s sub) := by
  unfold containsText
  infer_instance

/-- The characters of the text "\nexit" that `configHandler` removes. -/
def exitMark : List Char :=
  ['\n', 'e', 'x', 'i', 't']

/-- The removal of "\nexit" on the characters of a text. -/
def removeExit (text : List Char) : List Char :=
  replaceScan exitMark [] 0 text

/-- The unfinished beginnings of "\nexit": a newline and fewer than four
characters of "exit". -/
def unfinishedMarks : List String :=
  ["\n", "\ne", "\nex", "\nexi"]

/-- A template that writes the data of the fragment as it is. -/
def dataTemplate : Template :=
  { ExecuteTemplate := fun _ data => (data.Data, none) }

/-- A fragment whose data has a "\nexit" inside an unfinished "\nexit". -/
def nestedExitFrag : acl :=
  { Name := "edge", IPVersion := 4, Data := "\ne\nexitxit", IntfDirection := [] }

/-- The item has an enforcement point naming the device `d`. -/
def namesDevice (d : String) (item : ACLPushItem) : Prop :=
  ∃ ep ∈ item.EnforcePoint, ep.DeviceName = d

instance namesDeviceDecidable (d : String) (item : ACLPushItem) :
    Decidable (namesDevice d item) := by
  unfold namesDevice
  infer_instance

/-- The render of the device `dev` in `PreparePush`: the call of line 99. -/
def renderDevice (vendorMap : GoMap String) (aclMap : GoMap (List acl)) (aclTmpl : Template)
    (dev : String) : String × Option Error :=
  configHandler (GoMap.getD vendorMap dev "") (GoMap.getD aclMap dev []) aclTmpl

/-- The template files of a process in which "cisco_acl.tmpl" parses to the
given template and no other file parses. -/
def onlyCiscoACL (aclTmpl : Template) (file : String) : Option Template :=
  if file = "cisco_acl.tmpl" then some aclTmpl else none

/-- A push of two cisco items on the devices "bad" and "good": the first item
has an empty name after the split, on which `lineTemplate` fails. -/
def failingPush : List ACLPushItem :=
  [ { EnforcePoint :=
        [ { DeviceName := "bad", Units := [],
            Tags := [{ Type_ := "Canary", Value := "True" }] } ],
      AclName := "a.b.", IpVersion := some 4, Vendor := "cisco", Data := "deny\n" },
    { EnforcePoint :=
        [ { DeviceName := "good", Units := [],
            Tags := [{ Type_ := "Canary", Value := "True" }] },
          { DeviceName := "bad", Units := [], Tags := [] } ],
      AclName := "a.b.ok", IpVersion := some 4, Vendor := "cisco", Data := "permit\n" } ]

/-- The maps of `loadACL` on `failingPush`: the canary map. -/
def failingCanary : GoMap (List acl) :=
  [("bad", [{ Name := "", IPVersion := 4, Data := "deny\n", IntfDirection := [] }]),
   ("good", [{ Name := "ok", IPVersion := 4, Data := "permit\n", IntfDirection := [] }])]

/-- The maps of `loadACL` on `failingPush`: the global map. -/
def failingGlobal : GoMap (List acl) :=
  [("bad", [{ Name := "ok", IPVersion := 4, Data := "permit\n", IntfDirection := [] }])]

/-- The maps of `loadACL` on `failingPush`: the vendor map. -/
def failingVendor : GoMap String :=
  [("bad", "cisco"), ("good", "cisco")]

/-- An order of visit for the witnesses: the seed `[1]` for both buckets. -/
def swapOrder (_ : Nat) : List Nat :=
  [1]

/-! ## Reference notions for the names and the failure -/

/-- The segments put together again, with the separator between them. -/
def joinSegs (sep : Char) : List (List Char) → List Char
  | [] => []
  | [seg] => seg
  | seg :: next :: segs => seg ++ sep :: joinSegs sep (next :: segs)

/-- The name the specification gives to the fragments of an item: for the
vendor "cisco" the third segment of the name split at ".", for any other
vendor the raw name. -/
def fragmentName (item : ACLPushItem) : String :=
  if item.Vendor = "cisco" then (Split item.AclName '.').getD 2 "" else item.AclName

/-- The item is a cisco item whose name has fewer than three segments. -/
def malformedName (item : ACLPushItem) : Prop :=
  item.Vendor = "cisco" ∧ (Split item.AclName '.').length < 3

instance malformedNameDecidable (item : ACLPushItem) : Decidable (malformedName item) := by
  unfold malformedName
  infer_instance

/-- A cisco item without enforcement points whose name has no dot. -/
def dotlessItem : ACLPushItem :=
  { EnforcePoint := [], AclName := "go_out", IpVersion := some 4, Vendor := "cisco",
    Data := "no ip access-\n" }

/-- The input of the test case "multiple_ACL": `aclPushPb[1:3]`. -/
def multipleACL : List ACLPushItem :=
  (aclPushPb.drop 1).take 2

/-- The items of `aclPushPb` on which `loadACL` returns: the inputs of the test
cases "no_ACLEnforcementUnit" and "jcl_srx_coexist". -/
def wellNamedPush : List ACLPushItem :=
  aclPushPb.take 1 ++ aclPushPb.drop 4

/-- The maps of `loadACL` on `wellNamedPush`: the global map (the canary map
is empty). The juniper fragments have the IP version left by the first item. -/
def wellNamedGlobal : GoMap (List acl) :=
  [ ("ussvl2-1",
      [{ Name := "", IPVersion := 4,
         Data := "no ip access-list extended \nip access-list extended \n",
         IntfDirection := [] }]),
    ("us-tv",
      [{ Name := "jcl", IPVersion := 4,
         Data := "firewall \x7b\n    family inet \x7b\n        test juniper\n    \x7d\n\x7d\n",
         IntfDirection := [] }]),
    ("utv",
      [{ Name := "jcl", IPVersion := 4,
         Data := "firewall \x7b\n    family inet \x7b\n        test juniper\n    \x7d\n\x7d\n",
         IntfDirection := [] }]),
    ("us-.mtv",
      [{ Name := "jcl", IPVersion := 4,
         Data := "firewall \x7b\n    family inet \x7b\n        test juniper\n    \x7d\n\x7d\n",
         IntfDirection := [] }]),
    (".mtv",
      [{ Name := "u.srx", IPVersion := 4,
         Data := "security \x7b\n    replace: policies \x7b\n        test srx\n    \x7d\n\x7d\n",
         IntfDirection := [] }]) ]

/-- The maps of `loadACL` on `wellNamedPush`: the vendor map. -/
def wellNamedVendor : GoMap String :=
  [("ussvl2-1", "cisco"), ("us-tv", "juniper"), ("utv", "juniper"), ("us-.mtv", "juniper"),
   (".mtv", "juniper")]

/-- A push of one cisco item on the device "us1" with the two units of the
test case "multiple_ACLEnforcementUnit", under a name of three segments. -/
def twoUnitPush : List ACLPushItem :=
  [ { EnforcePoint :=
        [ { DeviceName := "us1",
            Units := [{ Name := "Vlan75", Direction := "in" },
                      { Name := "Vlan75", Direction := "out" }],
            Tags := [{ Type_ := "Region", Value := "AMER" }] },
          { DeviceName := "us2", Units := [], Tags := [] } ],
      AclName := "a.b.v3in", IpVersion := some 4, Vendor := "cisco",
      Data := "no ip access-list extended goon\n" } ]

/-- The maps of `loadACL` on `twoUnitPush`: the global map (the canary map is
empty). -/
def twoUnitGlobal : GoMap (List acl) :=
  [ ("us1",
      [{ Name := "v3in", IPVersion := 4, Data := "no ip access-list extended goon\n",
         IntfDirection := [{ Intf := "Vlan75", Direction := "in" },
                           { Intf := "Vlan75", Direction := "out" }] }]),
    ("us2",
      [{ Name := "v3in", IPVersion := 4, Data := "no ip access-list extended goon\n",
         IntfDirection := [] }]) ]

/-- The maps of `loadACL` on `twoUnitPush`: the vendor map. -/
def twoUnitVendor : GoMap String :=
  [("us1", "cisco"), ("us2", "cisco")]

/-- The input of the test case "jcl_srx_coexist": `aclPushPb[4:6]`, two juniper
items. -/
def jclSrxCoexist : List ACLPushItem :=
  aclPushPb.drop 4

/-- Template files of which none can be parsed. -/
def noTemplate (_ : String) : Option Template :=
  none

/-- An order of visit: the seed `[]` for both buckets, the order of insertion. -/
def plainOrder (_ : Nat) : List Nat :=
  []

/-- The text `out` is the text `text` with every non-overlapping occurrence of
`old`, scanned left to right, replaced by `new`: either `text` has no occurrence
of `old` and `out` is `text`, or `text` is `pre ++ old ++ rest` where this
occurrence of `old` is the leftmost one (no occurrence starts within `pre`), and
`out` is `pre ++ new` followed by the replacement in `rest`. -/
inductive ReplacedAll (old new : List Char) : List Char → List Char → Prop
  | done (text : List Char) : ¬ old <:+: text → ReplacedAll old new text text
  | step (pre rest out : List Char) :
      ¬ old <:+: pre ++ old.dropLast → ReplacedAll old new rest out →
      ReplacedAll old new (pre ++ old ++ rest) (pre ++ new ++ out)

/-- A fragment whose data ends with the beginning "\nex" of "\nexit". -/
def crossFragA : acl :=
  { Name := "edge", IPVersion := 4, Data := "a\nex", IntfDirection := [] }

/-- A fragment whose data starts with the end "it" of "\nexit". -/
def crossFragB : acl :=
  { Name := "core", IPVersion := 4, Data := "it\nb", IntfDirection := [] }

/-- A cisco item with the IP version 6 on the device "r1". -/
def ipCarryFirst : ACLPushItem :=
  { EnforcePoint := [{ DeviceName := "r1", Units := [], Tags := [] }],
    AclName := "a.b.v6", IpVersion := some 6, Vendor := "cisco",
    Data := "permit ipv6 any any\n" }

/-- A juniper item supplied without an IP version, on the device "r2". -/
def ipCarrySecond : ACLPushItem :=
  { EnforcePoint := [{ DeviceName := "r2", Units := [], Tags := [] }],
    AclName := "jcl", IpVersion := none, Vendor := "juniper",
    Data := "firewall \x7b\x7d\n" }

/-- The fragment of `ipCarrySecond` with the given IP version. -/
def ipCarryFrag (ipVersion : Int) : acl :=
  { Name := "jcl", IPVersion := ipVersion, Data := "firewall \x7b\x7d\n", IntfDirection := [] }

/-! ## Fragments with their addresses -/

/-- Where a call has allocated the objects of one fragment: the address of the
`acl` (lines 79, 82) and the address of its `i`-th `intfDir` (line 76). -/
structure FragAddrs where
  self : Nat
  entry : Nat → Nat

/-- The fragment as `ExecuteTemplate` receives it in the source: a pointer
`*acl`, whose `IntfDirection` is a slice of pointers `[]*intfDir`. A template
can print these addresses (`printf "%p" .`, or `.IntfDirection` itself, whose
elements `text/template` prints as addresses). -/
structure aclPtr where
  addr : Nat
  Name : String
  IPVersion : Int
  Data : String
  IntfDirection : List (Nat × intfDir)

/-- The value a pointer to a fragment points to. -/
def aclPtr.val (p : aclPtr) : acl :=
  { Name := p.Name, IPVersion := p.IPVersion, Data := p.Data,
    IntfDirection := p.IntfDirection.map Prod.snd }

/-- The entries of a fragment with their addresses, from the index `i` on. -/
def entriesAt (entry : Nat → Nat) : Nat → List intfDir → List (Nat × intfDir)
  | _, [] => []
  | i, x :: xs => (entry i, x) :: entriesAt entry (i + 1) xs

/-- The fragment at the addresses at which the call has allocated it. -/
def fragAt (a : FragAddrs) (frag : acl) : aclPtr :=
  { addr := a.self, Name := frag.Name, IPVersion := frag.IPVersion, Data := frag.Data,
    IntfDirection := entriesAt a.entry 0 frag.IntfDirection }

/-- The fragments of the list of a device, each at its addresses: `heap k` is
where the call has allocated the fragment of position `k`; each fragment of the
list is an allocation of its own. -/
def fragsAt (heap : Nat → FragAddrs) : Nat → List acl → List aclPtr
  | _, [] => []
  | k, frag :: rest => fragAt (heap k) frag :: fragsAt heap (k + 1) rest

/-- A parsed template that sees the fragment with its addresses: what
`ExecuteTemplate(b, name, data)` writes and returns for `data` of type `*acl`. -/
structure PtrTemplate where
  ExecuteTemplate : String → aclPtr → String × Option Error

/-- The loop of lines 114-118 on the buffer `b`, on fragments with addresses. -/
def ciscoLoopPtr (aclTmpl : PtrTemplate) : List aclPtr → String → Except Error String
  | [], b => Except.ok b
  | data :: rest, b =>
    match aclTmpl.ExecuteTemplate "layout" data with
    | (_, some err) => Except.error err
    | (out, none) => ciscoLoopPtr aclTmpl rest (b ++ out)

/-- The loop of lines 122-124 on the buffer `b`, on fragments with addresses. -/
def juniperLoopPtr : List aclPtr → String → String
  | [], b => b
  | data :: rest, b => juniperLoopPtr rest (b ++ data.Data)

/-- `configHandler` on fragments with addresses. -/
def configHandlerPtr (vendor : String) (aclData : List aclPtr) (aclTmpl : PtrTemplate) :
    String × Option Error :=
  if vendor = "cisco" then
    match ciscoLoopPtr aclTmpl aclData "" with
    | Except.error err => ("", some err)
    | Except.ok b => (Replace b "\nexit" "", none)
  else if vendor = "juniper" then
    (juniperLoopPtr aclData "", none)
  else
    ("", none)

/-- `loadTemplate` for templates that see addresses. -/
def loadTemplatePtr (parseFiles : String → Option PtrTemplate) (templateName : String) :
    Option PtrTemplate :=
  parseFiles (templateName ++ ".tmpl")

/-- The body of the loop over the devices of a bucket (lines 99-102), the
fragments of the device being at the addresses `heap dev`. -/
def deviceStepPtr (vendorMap : GoMap String) (aclMap : GoMap (List acl))
    (aclTmpl : PtrTemplate) (heap : String → Nat → FragAddrs)
    (st : GoMap String × List Error) (dev : String) : GoMap String × List Error :=
  let r := configHandlerPtr (GoMap.getD vendorMap dev "")
    (fragsAt (heap dev) 0 (GoMap.getD aclMap dev [])) aclTmpl
  let deviceACL := GoMap.set st.1 dev r.1
  match r.2 with
  | some err => (deviceACL, st.2 ++ [err])
  | none => (deviceACL, st.2)

/-- The body of the loop over the two buckets (lines 97-104), the fragments of
bucket `idx` being at the addresses `heap idx`. -/
def ringStepPtr (vendorMap : GoMap String) (aclMaps : List (GoMap (List acl)))
    (aclTmpl : PtrTemplate) (heap : Nat → String → Nat → FragAddrs)
    (order : Nat → List Nat) (st : List (GoMap String) × List Error) (idx : Nat) :
    List (GoMap String) × List Error :=
  let aclMap := aclMaps.getD idx []
  let r := (rangeOrder (order idx) (GoMap.keys aclMap)).foldl
    (deviceStepPtr vendorMap aclMap aclTmpl (heap idx)) ([], st.2)
  (st.1.set idx r.1, r.2)

/-- `PreparePush` with the addresses of the fragments: `heap idx dev k` is where
this call has allocated the fragment of position `k` of the list of the device
`dev` in the bucket `idx`. The addresses are chosen by the Go runtime; like the
order of visit they are a parameter of the call. -/
def PreparePushPtr (parseFiles : String → Option PtrTemplate)
    (heap : Nat → String → Nat → FragAddrs) (order : Nat → List Nat)
    (pushPb : List ACLPushItem) : Option (List (GoMap String) × List Error) :=
  match loadACL pushPb with
  | none => none
  | some (canaryMap, globalMap, vendorMap) =>
    match loadTemplatePtr parseFiles "cisco_acl" with
    | none => none
    | some ciscoACLTmpl =>
      let aclMaps := [canaryMap, globalMap]
      some ((List.range aclMaps.length).foldl
        (ringStepPtr vendorMap aclMaps ciscoACLTmpl heap order) ([[], []], []))

/-- The output of the template depends on the values of the fragment only, not
on the addresses. -/
def valueOnly (t : PtrTemplate) : Prop :=
  ∀ (name : String) (p q : aclPtr), p.val = q.val →
    t.ExecuteTemplate name p = t.ExecuteTemplate name q

/-- The template on values that a template on pointers gives, the addresses
being all zero. -/
def PtrTemplate.onValues (t : PtrTemplate) : Template :=
  { ExecuteTemplate := fun name frag =>
      t.ExecuteTemplate name (fragAt { self := 0, entry := fun _ => 0 } frag) }

/-- A template on values as a template on pointers: it reads the values only. -/
def Template.onPointers (t : Template) : PtrTemplate :=
  { ExecuteTemplate := fun name p => t.ExecuteTemplate name p.val }

/-- The addresses of a list in brackets, as `text/template` prints a slice of
pointers (in decimal here). -/
def showAddrs (entries : List (Nat × intfDir)) : String :=
  "[" ++ String.intercalate " " (entries.map (fun e => Nat.repr e.1)) ++ "]"

/-- A template that prints the field `IntfDirection` of the fragment. -/
def addrTemplate : PtrTemplate :=
  { ExecuteTemplate := fun name p =>
      if name = "layout" then (showAddrs p.IntfDirection, none)
      else ("", some "no such template") }

/-- The template files of a process in which "cisco_acl.tmpl" parses to the
given template on pointers and no other file parses. -/
def onlyCiscoACLPtr (aclTmpl : PtrTemplate) (file : String) : Option PtrTemplate :=
  if file = "cisco_acl.tmpl" then some aclTmpl else none

/-- Addresses above `base`, different for the fragments of `twoUnitPush`: the
`acl` of position `k` of the list of a device in the bucket `idx`, and its
entries 32, 48, ... bytes after it. -/
def heapAt (base : Nat) (idx : Nat) (dev : String) (k : Nat) : FragAddrs :=
  { self := base + 4096 * idx + (if dev = "us1" then 0 else 2048) + 128 * k,
    entry := fun i =>
      base + 4096 * idx + (if dev = "us1" then 0 else 2048) + 128 * k + 32 + 16 * i }

/-- The addresses of a first call. -/
def heapFirst : Nat → String → Nat → FragAddrs :=
  heapAt 49152

/-- The addresses of a second call. -/
def heapSecond : Nat → String → Nat → FragAddrs :=
  heapAt 81920

/-! ## Lemmas on Go maps -/

theorem GoMap.get?_set {β : Type} (m : GoMap β) (k : String) (v : β) (k' : String) :
    GoMap.get? (GoMap.set m k v) k' = if k = k' then some v else GoMap.get? m k' := by
  induction m with
  | nil => simp [GoMap.set, GoMap.get?]
  | cons e rest ih =>
    obtain ⟨k0, v0⟩ := e
    by_cases h0 : k0 = k
    · subst h0
      by_cases h1 : k0 = k' <;> simp [GoMap.set, GoMap.get?, h1]
    · by_cases h1 : k0 = k'
      · subst h1
        have h2 : ¬ k = k0 := fun h => h0 h.symm
        simp [GoMap.set, GoMap.get?, h0, h2]
      · simp [GoMap.set, GoMap.get?, h0, h1, ih]

theorem GoMap.getD_set {β : Type} (m : GoMap β) (k : String) (v : β) (k' : String) (z : β) :
    GoMap.getD (GoMap.set m k v) k' z = if k = k' then v else GoMap.getD m k' z := by
  unfold GoMap.getD
  rw [GoMap.get?_set]
  split <;> rfl

theorem GoMap.mem_keys_set {β : Type} (m : GoMap β) (k : String) (v : β) (k' : String) :
    k' ∈ GoMap.keys (GoMap.set m k v) ↔ k' = k ∨ k' ∈ GoMap.keys m := by
  induction m with
  | nil => simp [GoMap.set, GoMap.keys]
  | cons e rest ih =>
    obtain ⟨k0, v0⟩ := e
    by_cases h0 : k0 = k
    · subst h0
      simp [GoMap.set, GoMap.keys]
    · have ih' : k' ∈ List.map Prod.fst (GoMap.set rest k v) ↔
          k' = k ∨ k' ∈ List.map Prod.fst rest := ih
      simp only [GoMap.set, GoMap.keys, h0, if_false, List.map_cons, List.mem_cons, ih']
      tauto

theorem GoMap.nodup_keys_set {β : Type} (m : GoMap β) (k : String) (v : β)
    (h : (GoMap.keys m).Nodup) : (GoMap.keys (GoMap.set m k v)).Nodup := by
  induction m with
  | nil => simp [GoMap.set, GoMap.keys]
  | cons e rest ih =>
    obtain ⟨k0, v0⟩ := e
    have h' : k0 ∉ GoMap.keys rest ∧ (GoMap.keys rest).Nodup := by
      simpa [GoMap.keys] using h
    by_cases h0 : k0 = k
    · subst h0
      simpa [GoMap.set, GoMap.keys] using h
    · have hk : k0 ∉ GoMap.keys (GoMap.set rest k v) := by
        rw [GoMap.mem_keys_set]
        rintro (h1 | h1)
        · exact h0 h1
        · exact h'.1 h1
      have := ih h'.2
      simp only [GoMap.set, h0, if_false]
      simpa [GoMap.keys] using And.intro hk this

theorem GoMap.get?_eq_none_iff {β : Type} (m : GoMap β) (k : String) :
    GoMap.get? m k = none ↔ k ∉ GoMap.keys m := by
  induction m with
  | nil => simp [GoMap.get?, GoMap.keys]
  | cons e rest ih =>
    obtain ⟨k0, v0⟩ := e
    have ih' : GoMap.get? rest k = none ↔ k ∉ List.map Prod.fst rest := ih
    by_cases h0 : k0 = k
    · subst h0
      simp [GoMap.get?, GoMap.keys]
    · have h1 : ¬ k = k0 := fun h => h0 h.symm
      simp [GoMap.get?, GoMap.keys, h0, h1, ih']

theorem GoMap.isSome_get?_iff {β : Type} (m : GoMap β) (k : String) :
    (GoMap.get? m k).isSome ↔ k ∈ GoMap.keys m := by
  rw [← not_iff_not, ← GoMap.get?_eq_none_iff]
  cases GoMap.get? m k <;> simp

theorem rangeOrder_perm {α : Type} (seed : List Nat) (l : List α) :
    (rangeOrder seed l).Perm l := by
  induction l generalizing seed with
  | nil => cases seed <;> simp [rangeOrder]
  | cons x xs ih =>
    cases seed with
    | nil => simp [rangeOrder]
    | cons s seed =>
      simp only [rangeOrder]
      refine List.perm_middle.trans ?_
      rw [List.take_append_drop]
      exact (ih seed).cons x

theorem rangeOrder_surj {α : Type} (l visit : List α) (h : visit.Perm l) :
    ∃ seed, rangeOrder seed l = visit := by
  induction l generalizing visit with
  | nil =>
    have : visit = [] := List.Perm.eq_nil h
    exact ⟨[], by rw [this]; rfl⟩
  | cons x xs ih =>
    have hx : x ∈ visit := h.mem_iff.2 (List.mem_cons_self _ _)
    obtain ⟨a, b, rfl⟩ := List.append_of_mem hx
    have hab : (a ++ b).Perm xs := (List.perm_middle.symm.trans h).cons_inv
    obtain ⟨seed, hs⟩ := ih (a ++ b) hab
    refine ⟨a.length :: seed, ?_⟩
    have hlt : a.length % ((a ++ b).length + 1) = a.length := by
      apply Nat.mod_eq_of_lt
      simp only [List.length_append]
      omega
    simp only [rangeOrder, hs, hlt]
    simp

/-! ## Lemmas on `loadACL` -/

theorem tagsCanary_iff (tags : List ACLEnforcementPoint_Tag) :
    tagsCanary tags = true ↔ hasCanaryTag tags := by
  induction tags with
  | nil => simp [tagsCanary, hasCanaryTag]
  | cons tag rest ih =>
    unfold tagsCanary
    by_cases h : tag.Type_ = "Canary" ∧ tag.Value = "True"
    · simp only [h, and_self, if_true, true_iff]
      exact ⟨tag, List.mem_cons_self _ _, h⟩
    · rw [if_neg h, ih]
      constructor
      · rintro ⟨t, ht, h1⟩
        exact ⟨t, List.mem_cons_of_mem _ ht, h1⟩
      · rintro ⟨t, ht, h1⟩
        rcases List.mem_cons.1 ht with rfl | ht
        · exact absurd h1 h
        · exact ⟨t, ht, h1⟩

theorem tagsCanary_eq_decide (tags : List ACLEnforcementPoint_Tag) :
    tagsCanary tags = decide (hasCanaryTag tags) := by
  by_cases h : hasCanaryTag tags
  · simp [h, (tagsCanary_iff tags).2 h]
  · have : tagsCanary tags = false := by
      cases h' : tagsCanary tags
      · rfl
      · exact absurd ((tagsCanary_iff tags).1 h') h
    simp [h, this]

theorem loadLoop_eq (st : ACLMaps × Int) (items : List ACLPushItem) :
    loadLoop st items =
      if items.all (fun item => (itemName item).isSome) then
        some ((pointPairs st.2 items).foldl placePair st.1, items.foldl itemIpVer st.2)
      else none := by
  induction items generalizing st with
  | nil => simp [loadLoop, pointPairs]
  | cons item rest ih =>
    unfold loadLoop itemStep
    cases hn : itemName item with
    | none => simp [hn]
    | some n =>
      simp only [ih, List.all_cons, hn, Option.isSome_some, Bool.true_and, pointPairs,
        List.foldl_append, List.foldl_map, List.foldl_cons, placePair, Option.getD_some]

theorem loadACL_eq (pushPb : List ACLPushItem) :
    loadACL pushPb =
      if pushPb.all (fun item => (itemName item).isSome) then
        some (bucket ((pointPairs 0 pushPb).foldl placePair emptyMaps) true,
          bucket ((pointPairs 0 pushPb).foldl placePair emptyMaps) false,
          ((pointPairs 0 pushPb).foldl placePair emptyMaps).vendorMap)
      else none := by
  unfold loadACL
  rw [loadLoop_eq]
  by_cases h : pushPb.all (fun item => (itemName item).isSome) = true
  · rw [if_pos h, if_pos h]
    rfl
  · rw [if_neg h, if_neg h]

theorem placePair_canaryMap (m : ACLMaps) (p : ACLPushItem × ACLEnforcementPoint × Int) :
    (placePair m p).canaryMap =
      if hasCanaryTag p.2.1.Tags then
        GoMap.set m.canaryMap p.2.1.DeviceName
          (GoMap.getD m.canaryMap p.2.1.DeviceName [] ++ [pairFragment p])
      else m.canaryMap := by
  unfold placePair pointStep
  simp only [tagsCanary_eq_decide]
  by_cases h : hasCanaryTag p.2.1.Tags <;> simp [h, pairFragment]

theorem placePair_globalMap (m : ACLMaps) (p : ACLPushItem × ACLEnforcementPoint × Int) :
    (placePair m p).globalMap =
      if hasCanaryTag p.2.1.Tags then m.globalMap
      else
        GoMap.set m.globalMap p.2.1.DeviceName
          (GoMap.getD m.globalMap p.2.1.DeviceName [] ++ [pairFragment p]) := by
  unfold placePair pointStep
  simp only [tagsCanary_eq_decide]
  by_cases h : hasCanaryTag p.2.1.Tags <;> simp [h, pairFragment]

theorem placePair_vendorMap (m : ACLMaps) (p : ACLPushItem × ACLEnforcementPoint × Int) :
    (placePair m p).vendorMap = GoMap.set m.vendorMap p.2.1.DeviceName p.1.Vendor := by
  unfold placePair pointStep
  simp only [tagsCanary_eq_decide]
  by_cases h : hasCanaryTag p.2.1.Tags <;> simp [h]

theorem placePair_bucket (m : ACLMaps) (p : ACLPushItem × ACLEnforcementPoint × Int)
    (ring : Bool) :
    bucket (placePair m p) ring =
      if decide (hasCanaryTag p.2.1.Tags) = ring then
        GoMap.set (bucket m ring) p.2.1.DeviceName
          (GoMap.getD (bucket m ring) p.2.1.DeviceName [] ++ [pairFragment p])
      else bucket m ring := by
  cases ring
  · simp only [bucket, Bool.false_eq_true, if_false, placePair_globalMap]
    by_cases h : hasCanaryTag p.2.1.Tags <;> simp [h]
  · simp only [bucket, if_true, placePair_canaryMap]
    by_cases h : hasCanaryTag p.2.1.Tags <;> simp [h]

theorem placePair_getD (m : ACLMaps) (p : ACLPushItem × ACLEnforcementPoint × Int)
    (ring : Bool) (d : String) :
    GoMap.getD (bucket (placePair m p) ring) d [] =
      GoMap.getD (bucket m ring) d [] ++ (if pairIn d ring p = true then [pairFragment p] else []) := by
  rw [placePair_bucket]
  by_cases h : decide (hasCanaryTag p.2.1.Tags) = ring
  · rw [if_pos h, GoMap.getD_set]
    by_cases hd : p.2.1.DeviceName = d
    · subst hd
      simp [pairIn, pointIn, h]
    · simp [pairIn, pointIn, hd]
  · rw [if_neg h]
    simp [pairIn, pointIn, h]

theorem placePair_mem_keys (m : ACLMaps) (p : ACLPushItem × ACLEnforcementPoint × Int)
    (ring : Bool) (d : String) :
    d ∈ GoMap.keys (bucket (placePair m p) ring) ↔
      d ∈ GoMap.keys (bucket m ring) ∨ pairIn d ring p = true := by
  rw [placePair_bucket]
  by_cases h : decide (hasCanaryTag p.2.1.Tags) = ring
  · rw [if_pos h, GoMap.mem_keys_set]
    simp only [pairIn, pointIn, h, beq_self_eq_true, Bool.and_true, decide_eq_true_eq]
    constructor
    · rintro (h1 | h1)
      · exact Or.inr h1.symm
      · exact Or.inl h1
    · rintro (h1 | h1)
      · exact Or.inr h1
      · exact Or.inl h1.symm
  · rw [if_neg h]
    simp [pairIn, pointIn, h]

theorem placePair_nodup (m : ACLMaps) (p : ACLPushItem × ACLEnforcementPoint × Int)
    (ring : Bool) (h : (GoMap.keys (bucket m ring)).Nodup) :
    (GoMap.keys (bucket (placePair m p) ring)).Nodup := by
  rw [placePair_bucket]
  split
  · exact GoMap.nodup_keys_set _ _ _ h
  · exact h

theorem foldl_placePair_getD (ps : List (ACLPushItem × ACLEnforcementPoint × Int))
    (m : ACLMaps) (ring : Bool) (d : String) :
    GoMap.getD (bucket (ps.foldl placePair m) ring) d [] =
      GoMap.getD (bucket m ring) d [] ++ (ps.filter (pairIn d ring)).map pairFragment := by
  induction ps generalizing m with
  | nil => simp
  | cons p ps ih =>
    rw [List.foldl_cons, ih, placePair_getD, List.filter_cons]
    by_cases h : pairIn d ring p = true <;> simp [h]

theorem foldl_placePair_mem_keys (ps : List (ACLPushItem × ACLEnforcementPoint × Int))
    (m : ACLMaps) (ring : Bool) (d : String) :
    d ∈ GoMap.keys (bucket (ps.foldl placePair m) ring) ↔
      d ∈ GoMap.keys (bucket m ring) ∨ ∃ p ∈ ps, pairIn d ring p = true := by
  induction ps generalizing m with
  | nil => simp
  | cons p ps ih =>
    rw [List.foldl_cons, ih, placePair_mem_keys]
    simp only [List.mem_cons, exists_eq_or_imp]
    tauto

theorem foldl_placePair_nodup (ps : List (ACLPushItem × ACLEnforcementPoint × Int))
    (m : ACLMaps) (ring : Bool) (h : (GoMap.keys (bucket m ring)).Nodup) :
    (GoMap.keys (bucket (ps.foldl placePair m) ring)).Nodup := by
  induction ps generalizing m with
  | nil => simpa using h
  | cons p ps ih =>
    rw [List.foldl_cons]
    exact ih _ (placePair_nodup m p ring h)

theorem totalLen_set_append (m : GoMap (List acl)) (k : String) (f : acl) :
    totalLen (GoMap.set m k (GoMap.getD m k [] ++ [f])) = totalLen m + 1 := by
  induction m with
  | nil => simp [GoMap.set, GoMap.getD, GoMap.get?, totalLen]
  | cons e rest ih =>
    obtain ⟨k0, v0⟩ := e
    by_cases h0 : k0 = k
    · subst h0
      simp [GoMap.set, GoMap.getD, GoMap.get?, totalLen]
      omega
    · have hg : GoMap.getD ((k0, v0) :: rest) k [] = GoMap.getD rest k [] := by
        simp [GoMap.getD, GoMap.get?, h0]
      rw [hg]
      have ih' := ih
      simp only [totalLen] at ih' ⊢
      simp only [GoMap.set, h0, if_false, List.map_cons, List.sum_cons, ih']
      omega

theorem foldl_placePair_totalLen (ps : List (ACLPushItem × ACLEnforcementPoint × Int))
    (m : ACLMaps) :
    totalLen (bucket (ps.foldl placePair m) true) + totalLen (bucket (ps.foldl placePair m) false)
      = totalLen (bucket m true) + totalLen (bucket m false) + ps.length := by
  induction ps generalizing m with
  | nil => simp
  | cons p ps ih =>
    rw [List.foldl_cons, ih, placePair_bucket, placePair_bucket]
    by_cases h : hasCanaryTag p.2.1.Tags
    · simp [h, totalLen_set_append]
      omega
    · simp [h, totalLen_set_append]
      omega

theorem pointPairs_map_point (ipVer : Int) (items : List ACLPushItem) :
    (pointPairs ipVer items).map (fun p => p.2.1) = allPoints items := by
  induction items generalizing ipVer with
  | nil => simp [pointPairs, allPoints]
  | cons item rest ih =>
    have ih' := ih (itemIpVer ipVer item)
    simp only [allPoints] at ih' ⊢
    simp [pointPairs, ih', List.map_map, Function.comp_def]

theorem filter_pairIn_length (ipVer : Int) (items : List ACLPushItem) (d : String)
    (ring : Bool) :
    ((pointPairs ipVer items).filter (pairIn d ring)).length =
      ((allPoints items).filter (pointIn d ring)).length := by
  rw [← pointPairs_map_point ipVer items, List.filter_map, List.length_map]
  rfl

theorem pointPairs_retag (retag : ACLEnforcementPoint → List ACLEnforcementPoint_Tag)
    (ipVer : Int) (items : List ACLPushItem) :
    pointPairs ipVer (items.map (retagItem retag)) =
      (pointPairs ipVer items).map
        (fun p => (retagItem retag p.1, { p.2.1 with Tags := retag p.2.1 }, p.2.2)) := by
  induction items generalizing ipVer with
  | nil => simp [pointPairs]
  | cons item rest ih =>
    have h1 : itemIpVer ipVer (retagItem retag item) = itemIpVer ipVer item := rfl
    have h2 : (retagItem retag item).EnforcePoint
        = item.EnforcePoint.map (fun ep => { ep with Tags := retag ep }) := rfl
    simp only [List.map_cons, pointPairs, ih, h1, h2, List.map_append, List.map_map]
    rfl

theorem placePair_retag (retag : ACLEnforcementPoint → List ACLEnforcementPoint_Tag)
    (hr : ∀ ep, hasCanaryTag (retag ep) ↔ hasCanaryTag ep.Tags)
    (m : ACLMaps) (p : ACLPushItem × ACLEnforcementPoint × Int) :
    placePair m (retagItem retag p.1, { p.2.1 with Tags := retag p.2.1 }, p.2.2)
      = placePair m p := by
  have h1 : itemName (retagItem retag p.1) = itemName p.1 := rfl
  have h2 : tagsCanary (retag p.2.1) = tagsCanary p.2.1.Tags := by
    rw [tagsCanary_eq_decide, tagsCanary_eq_decide]
    exact decide_eq_decide.2 (hr p.2.1)
  have h3 : (retagItem retag p.1).Data = p.1.Data := rfl
  have h4 : (retagItem retag p.1).Vendor = p.1.Vendor := rfl
  simp only [placePair, h1, h3, h4]
  simp only [pointStep, h2]

theorem loadACL_retag (retag : ACLEnforcementPoint → List ACLEnforcementPoint_Tag)
    (hr : ∀ ep, hasCanaryTag (retag ep) ↔ hasCanaryTag ep.Tags) (pushPb : List ACLPushItem) :
    loadACL (pushPb.map (retagItem retag)) = loadACL pushPb := by
  have h1 : (pushPb.map (retagItem retag)).all (fun item => (itemName item).isSome)
      = pushPb.all (fun item => (itemName item).isSome) := by
    rw [List.all_map]
    rfl
  have h2 : (pointPairs 0 (pushPb.map (retagItem retag))).foldl placePair emptyMaps
      = (pointPairs 0 pushPb).foldl placePair emptyMaps := by
    rw [pointPairs_retag, List.foldl_map]
    congr 1
    funext m p
    exact placePair_retag retag hr m p
  rw [loadACL_eq, loadACL_eq, h1, h2]

theorem loadACL_some (pushPb : List ACLPushItem) (c g : GoMap (List acl)) (v : GoMap String)
    (h : loadACL pushPb = some (c, g, v)) :
    c = bucket ((pointPairs 0 pushPb).foldl placePair emptyMaps) true ∧
    g = bucket ((pointPairs 0 pushPb).foldl placePair emptyMaps) false ∧
    v = ((pointPairs 0 pushPb).foldl placePair emptyMaps).vendorMap := by
  rw [loadACL_eq] at h
  split at h
  · simp only [Option.some.injEq, Prod.mk.injEq] at h
    exact ⟨h.1.symm, h.2.1.symm, h.2.2.symm⟩
  · exact absurd h (by simp)

theorem mixedPush_loadACL :
    loadACL mixedPush = some (mixedCanary, mixedGlobal, mixedVendor) := by
  decide

/-! ## Classification: rings and order -/

/-- C1: when `loadACL` returns, for every device the canary bucket holds as
many fragments as there are enforcement points naming the device that have a
tag (Canary, True), and the global bucket as many as there are points naming it
without such a tag; the two buckets together hold as many fragments as there
are enforcement points; and replacing the tags of the points by any tags with
the same presence of (Canary, True) does not change the result. -/
theorem loadACL_point_in_one_ring (pushPb : List ACLPushItem)
    (c g : GoMap (List acl)) (v : GoMap String) (h : loadACL pushPb = some (c, g, v)) :
    (∀ d : String,
      (GoMap.getD c d []).length =
        ((allPoints pushPb).filter
          (fun ep => decide (ep.DeviceName = d ∧ hasCanaryTag ep.Tags))).length ∧
      (GoMap.getD g d []).length =
        ((allPoints pushPb).filter
          (fun ep => decide (ep.DeviceName = d ∧ ¬ hasCanaryTag ep.Tags))).length) ∧
    totalLen c + totalLen g = (allPoints pushPb).length ∧
    (∀ retag : ACLEnforcementPoint → List ACLEnforcementPoint_Tag,
      (∀ ep, hasCanaryTag (retag ep) ↔ hasCanaryTag ep.Tags) →
        loadACL (pushPb.map (retagItem retag)) = some (c, g, v)) := by
  obtain ⟨hc, hg, -⟩ := loadACL_some pushPb c g v h
  refine ⟨fun d => ⟨?_, ?_⟩, ?_, ?_⟩
  · have hf : (fun ep : ACLEnforcementPoint => decide (ep.DeviceName = d ∧ hasCanaryTag ep.Tags))
        = pointIn d true := by
      funext ep
      simp [pointIn]
    rw [hc, foldl_placePair_getD, hf, ← filter_pairIn_length 0 pushPb d true]
    simp [bucket, emptyMaps, GoMap.getD, GoMap.get?]
  · have hf : (fun ep : ACLEnforcementPoint => decide (ep.DeviceName = d ∧ ¬ hasCanaryTag ep.Tags))
        = pointIn d false := by
      funext ep
      simp [pointIn]
    rw [hg, foldl_placePair_getD, hf, ← filter_pairIn_length 0 pushPb d false]
    simp [bucket, emptyMaps, GoMap.getD, GoMap.get?]
  · rw [hc, hg, foldl_placePair_totalLen, ← pointPairs_map_point 0 pushPb, List.length_map]
    simp [bucket, emptyMaps, totalLen]
  · intro retag hr
    rw [loadACL_retag retag hr, h]

/-- C1, on `mixedPush`, whose five enforcement points give one canary fragment
and four global fragments. -/
theorem loadACL_point_in_one_ring_witness :
    loadACL mixedPush = some (mixedCanary, mixedGlobal, mixedVendor) ∧
    ((∀ d : String,
      (GoMap.getD mixedCanary d []).length =
        ((allPoints mixedPush).filter
          (fun ep => decide (ep.DeviceName = d ∧ hasCanaryTag ep.Tags))).length ∧
      (GoMap.getD mixedGlobal d []).length =
        ((allPoints mixedPush).filter
          (fun ep => decide (ep.DeviceName = d ∧ ¬ hasCanaryTag ep.Tags))).length) ∧
    totalLen mixedCanary + totalLen mixedGlobal = (allPoints mixedPush).length ∧
    (∀ retag : ACLEnforcementPoint → List ACLEnforcementPoint_Tag,
      (∀ ep, hasCanaryTag (retag ep) ↔ hasCanaryTag ep.Tags) →
        loadACL (mixedPush.map (retagItem retag)) = some (mixedCanary, mixedGlobal, mixedVendor))) :=
  ⟨mixedPush_loadACL,
    loadACL_point_in_one_ring mixedPush mixedCanary mixedGlobal mixedVendor mixedPush_loadACL⟩

/-- C2: when `loadACL` returns, the list stored for a device in a ring is the
list of the fragments of the (item, enforcement point) pairs that name the
device and belong to the ring, in input order and with repetitions: the canary
ring has the pairs whose point has a tag (Canary, True), the global ring the
other pairs. -/
theorem loadACL_bucket_in_input_order (pushPb : List ACLPushItem)
    (c g : GoMap (List acl)) (v : GoMap String) (h : loadACL pushPb = some (c, g, v))
    (d : String) :
    GoMap.getD c d [] =
      ((pointPairs 0 pushPb).filter
        (fun p => decide (p.2.1.DeviceName = d ∧ hasCanaryTag p.2.1.Tags))).map pairFragment ∧
    GoMap.getD g d [] =
      ((pointPairs 0 pushPb).filter
        (fun p => decide (p.2.1.DeviceName = d ∧ ¬ hasCanaryTag p.2.1.Tags))).map pairFragment := by
  obtain ⟨hc, hg, -⟩ := loadACL_some pushPb c g v h
  constructor
  · have hf : (fun p : ACLPushItem × ACLEnforcementPoint × Int =>
        decide (p.2.1.DeviceName = d ∧ hasCanaryTag p.2.1.Tags)) = pairIn d true := by
      funext p
      simp [pairIn, pointIn]
    rw [hc, foldl_placePair_getD, hf]
    simp [bucket, emptyMaps, GoMap.getD, GoMap.get?]
  · have hf : (fun p : ACLPushItem × ACLEnforcementPoint × Int =>
        decide (p.2.1.DeviceName = d ∧ ¬ hasCanaryTag p.2.1.Tags)) = pairIn d false := by
      funext p
      simp [pairIn, pointIn]
    rw [hg, foldl_placePair_getD, hf]
    simp [bucket, emptyMaps, GoMap.getD, GoMap.get?]

/-- C2, on `mixedPush` and the device "r1", whose global list has the fragment
of the first item and then twice the same fragment of the second item. -/
theorem loadACL_bucket_in_input_order_witness :
    loadACL mixedPush = some (mixedCanary, mixedGlobal, mixedVendor) ∧
    GoMap.getD mixedCanary "r1" [] =
      ((pointPairs 0 mixedPush).filter
        (fun p => decide (p.2.1.DeviceName = "r1" ∧ hasCanaryTag p.2.1.Tags))).map pairFragment ∧
    GoMap.getD mixedGlobal "r1" [] =
      ((pointPairs 0 mixedPush).filter
        (fun p => decide (p.2.1.DeviceName = "r1" ∧ ¬ hasCanaryTag p.2.1.Tags))).map pairFragment :=
  ⟨mixedPush_loadACL,
    loadACL_bucket_in_input_order mixedPush mixedCanary mixedGlobal mixedVendor
      mixedPush_loadACL "r1"⟩

/-! ## Rendering of one device -/

theorem foldl_append_string (l : List String) (b : String) :
    l.foldl (fun r s => r ++ s) b = b ++ l.foldl (fun r s => r ++ s) "" := by
  induction l generalizing b with
  | nil => simp
  | cons x xs ih =>
    rw [List.foldl_cons, ih, List.foldl_cons, ih ("" ++ x), String.append_assoc]
    simp

theorem join_cons (x : String) (xs : List String) :
    String.join (x :: xs) = x ++ String.join xs := by
  unfold String.join
  rw [List.foldl_cons, foldl_append_string]
  simp

theorem join_data (l : List String) :
    (String.join l).data = l.flatMap (fun s => s.data) := by
  induction l with
  | nil => rfl
  | cons x xs ih => rw [join_cons, String.data_append, ih, List.flatMap_cons]

theorem juniperLoop_eq (aclData : List acl) (b : String) :
    juniperLoop aclData b = b ++ String.join (aclData.map (fun data => data.Data)) := by
  induction aclData generalizing b with
  | nil => simp [juniperLoop, String.join]
  | cons data rest ih =>
    rw [juniperLoop, ih, List.map_cons, join_cons, String.append_assoc]

theorem ciscoLoop_ok (aclTmpl : Template) (aclData : List acl) (b : String)
    (executed : List acl)
    (h : ∀ data ∈ aclData, (aclTmpl.ExecuteTemplate "layout" data).2 = none) :
    ciscoLoop aclTmpl aclData b executed =
      (Except.ok (b ++ templateOutput aclTmpl aclData), executed ++ aclData) := by
  induction aclData generalizing b executed with
  | nil => simp [ciscoLoop, templateOutput, String.join]
  | cons data rest ih =>
    have h0 := h data (List.mem_cons_self _ _)
    have hr : ∀ x ∈ rest, (aclTmpl.ExecuteTemplate "layout" x).2 = none :=
      fun x hx => h x (List.mem_cons_of_mem _ hx)
    rcases hx : aclTmpl.ExecuteTemplate "layout" data with ⟨out, err⟩
    rw [hx] at h0
    simp only at h0
    subst h0
    unfold ciscoLoop
    simp only [hx]
    rw [ih _ _ hr]
    simp [templateOutput, join_cons, hx, String.append_assoc]

theorem ciscoLoop_fail (aclTmpl : Template) (pre : List acl) (f : acl) (post : List acl)
    (e : Error) (b : String) (executed : List acl)
    (hpre : ∀ data ∈ pre, (aclTmpl.ExecuteTemplate "layout" data).2 = none)
    (hf : (aclTmpl.ExecuteTemplate "layout" f).2 = some e) :
    ciscoLoop aclTmpl (pre ++ f :: post) b executed =
      (Except.error e, executed ++ (pre ++ [f])) := by
  induction pre generalizing b executed with
  | nil =>
    rcases hx : aclTmpl.ExecuteTemplate "layout" f with ⟨out, err⟩
    rw [hx] at hf
    simp only at hf
    subst hf
    simp only [List.nil_append]
    unfold ciscoLoop
    simp only [hx]
  | cons data rest ih =>
    have h0 := hpre data (List.mem_cons_self _ _)
    have hr : ∀ x ∈ rest, (aclTmpl.ExecuteTemplate "layout" x).2 = none :=
      fun x hx => hpre x (List.mem_cons_of_mem _ hx)
    rcases hx : aclTmpl.ExecuteTemplate "layout" data with ⟨out, err⟩
    rw [hx] at h0
    simp only at h0
    subst h0
    simp only [List.cons_append]
    unfold ciscoLoop
    simp only [hx]
    rw [ih _ _ hr]
    simp

theorem exists_first_failure (aclTmpl : Template) (aclData : List acl)
    (h : ∃ data ∈ aclData, (aclTmpl.ExecuteTemplate "layout" data).2 ≠ none) :
    ∃ pre f post e, aclData = pre ++ f :: post ∧
      (∀ data ∈ pre, (aclTmpl.ExecuteTemplate "layout" data).2 = none) ∧
      (aclTmpl.ExecuteTemplate "layout" f).2 = some e := by
  induction aclData with
  | nil =>
    obtain ⟨x, hx, -⟩ := h
    exact absurd hx (List.not_mem_nil x)
  | cons data rest ih =>
    cases hd : (aclTmpl.ExecuteTemplate "layout" data).2 with
    | some e => exact ⟨[], data, rest, e, rfl, by simp, hd⟩
    | none =>
      have h' : ∃ x ∈ rest, (aclTmpl.ExecuteTemplate "layout" x).2 ≠ none := by
        obtain ⟨x, hx, hne⟩ := h
        rcases List.mem_cons.1 hx with rfl | hx
        · exact absurd hd hne
        · exact ⟨x, hx, hne⟩
      obtain ⟨pre, f, post, e, h1, h2, h3⟩ := ih h'
      refine ⟨data :: pre, f, post, e, by rw [h1]; rfl, ?_, h3⟩
      intro x hx
      rcases List.mem_cons.1 hx with rfl | hx
      · exact hd
      · exact h2 x hx

theorem configHandlerRun_cisco_ok (aclTmpl : Template) (aclData : List acl)
    (h : ∀ data ∈ aclData, (aclTmpl.ExecuteTemplate "layout" data).2 = none) :
    configHandlerRun "cisco" aclData aclTmpl =
      ((Replace (templateOutput aclTmpl aclData) "\nexit" "", none), aclData) := by
  unfold configHandlerRun
  rw [if_pos rfl, ciscoLoop_ok aclTmpl aclData "" [] h]
  simp

theorem configHandlerRun_cisco_fail (aclTmpl : Template) (pre : List acl) (f : acl)
    (post : List acl) (e : Error)
    (hpre : ∀ data ∈ pre, (aclTmpl.ExecuteTemplate "layout" data).2 = none)
    (hf : (aclTmpl.ExecuteTemplate "layout" f).2 = some e) :
    configHandlerRun "cisco" (pre ++ f :: post) aclTmpl = (("", some e), pre ++ [f]) := by
  unfold configHandlerRun
  rw [if_pos rfl, ciscoLoop_fail aclTmpl pre f post e "" [] hpre hf]
  simp

theorem configHandler_text_of_error (vendor : String) (aclData : List acl) (aclTmpl : Template)
    (h : (configHandler vendor aclData aclTmpl).2 ≠ none) :
    (configHandler vendor aclData aclTmpl).1 = "" := by
  unfold configHandler configHandlerRun at h ⊢
  by_cases hv : vendor = "cisco"
  · rw [if_pos hv] at h ⊢
    rcases hx : ciscoLoop aclTmpl aclData "" [] with ⟨_ | _, executed⟩
    · simp [hx]
    · rw [hx] at h
      exact absurd rfl h
  · rw [if_neg hv] at h ⊢
    by_cases hj : vendor = "juniper"
    · rw [if_pos hj] at h
      exact absurd rfl h
    · rw [if_neg hj]

/-- C3: for the vendor "juniper" `configHandler` returns a nil error and the
concatenation of the `Data` fields of the fragments in list order, character
for character, and executes the template on no fragment; the empty list gives
the empty string. -/
theorem configHandler_juniper_concat (aclData : List acl) (aclTmpl : Template) :
    configHandlerRun "juniper" aclData aclTmpl =
      ((String.join (aclData.map (fun data => data.Data)), none), []) ∧
    configHandler "juniper" aclData aclTmpl =
      (String.join (aclData.map (fun data => data.Data)), none) ∧
    (configHandler "juniper" aclData aclTmpl).1.data =
      aclData.flatMap (fun data => data.Data.data) ∧
    configHandler "juniper" [] aclTmpl = ("", none) := by
  have h : configHandlerRun "juniper" aclData aclTmpl =
      ((String.join (aclData.map (fun data => data.Data)), none), []) := by
    unfold configHandlerRun
    rw [if_neg (by decide), if_pos rfl, juniperLoop_eq]
    simp
  refine ⟨h, ?_, ?_, rfl⟩
  · unfold configHandler
    rw [h]
  · unfold configHandler
    rw [h]
    simp only [join_data, List.flatMap_map]

/-- C5: for a vendor that is neither "cisco" nor "juniper" `configHandler`
returns the empty string and a nil error and executes the template on no
fragment; so the step of `PreparePush` for a device with such a vendor stores
the empty string for the device and leaves the error list as it was. -/
theorem configHandler_unknown_vendor (vendor : String) (aclData : List acl)
    (aclTmpl : Template) (hc : vendor ≠ "cisco") (hj : vendor ≠ "juniper") :
    configHandlerRun vendor aclData aclTmpl = (("", none), []) ∧
    configHandler vendor aclData aclTmpl = ("", none) ∧
    ∀ (vendorMap : GoMap String) (aclMap : GoMap (List acl))
      (st : GoMap String × List Error) (dev : String),
      GoMap.getD vendorMap dev "" = vendor →
        deviceStep vendorMap aclMap aclTmpl st dev = (GoMap.set st.1 dev "", st.2) := by
  have h : ∀ l : List acl, configHandlerRun vendor l aclTmpl = (("", none), []) := by
    intro l
    unfold configHandlerRun
    rw [if_neg hc, if_neg hj]
  refine ⟨h aclData, ?_, ?_⟩
  · unfold configHandler
    rw [h]
  · intro vendorMap aclMap st dev hv
    unfold deviceStep configHandler
    rw [hv, h]

/-- C5, for the vendor "arista". -/
theorem configHandler_unknown_vendor_witness :
    ("arista" ≠ "cisco" ∧ "arista" ≠ "juniper") ∧
    (configHandlerRun "arista" [edgeFrag [], jclFrag] lineTemplate = (("", none), []) ∧
    configHandler "arista" [edgeFrag [], jclFrag] lineTemplate = ("", none) ∧
    ∀ (vendorMap : GoMap String) (aclMap : GoMap (List acl))
      (st : GoMap String × List Error) (dev : String),
      GoMap.getD vendorMap dev "" = "arista" →
        deviceStep vendorMap aclMap lineTemplate st dev = (GoMap.set st.1 dev "", st.2)) :=
  ⟨⟨by decide, by decide⟩,
    configHandler_unknown_vendor "arista" [edgeFrag [], jclFrag] lineTemplate
      (by decide) (by decide)⟩

/-- C6: for the vendor "cisco" `configHandler` returns a non-nil error exactly
when the execution of the template fails on some fragment; and when the
fragment `f` is the first on which it fails, with the error `e`, the error
returned is `e`, the text returned is empty, and the template has been executed
on the fragments up to `f` and on no fragment after it. -/
theorem configHandler_cisco_first_error (aclData : List acl) (aclTmpl : Template) :
    ((configHandler "cisco" aclData aclTmpl).2 ≠ none ↔
      ∃ data ∈ aclData, (aclTmpl.ExecuteTemplate "layout" data).2 ≠ none) ∧
    ∀ (pre : List acl) (f : acl) (post : List acl) (e : Error),
      aclData = pre ++ f :: post →
      (∀ data ∈ pre, (aclTmpl.ExecuteTemplate "layout" data).2 = none) →
      (aclTmpl.ExecuteTemplate "layout" f).2 = some e →
        configHandlerRun "cisco" aclData aclTmpl = (("", some e), pre ++ [f]) := by
  constructor
  · constructor
    · intro h
      by_contra hne
      have hall : ∀ data ∈ aclData, (aclTmpl.ExecuteTemplate "layout" data).2 = none := by
        intro data hd
        by_contra hx
        exact hne ⟨data, hd, hx⟩
      apply h
      unfold configHandler
      rw [configHandlerRun_cisco_ok aclTmpl aclData hall]
    · intro h
      obtain ⟨pre, f, post, e, h1, h2, h3⟩ := exists_first_failure aclTmpl aclData h
      unfold configHandler
      rw [h1, configHandlerRun_cisco_fail aclTmpl pre f post e h2 h3]
      simp
  · intro pre f post e h1 h2 h3
    rw [h1]
    exact configHandlerRun_cisco_fail aclTmpl pre f post e h2 h3

/-- C6, on three fragments of which the second has an empty name, on which
`lineTemplate` fails: the third fragment is not executed. -/
theorem configHandler_cisco_first_error_witness :
    configHandlerRun "cisco"
        [edgeFrag [], { Name := "", IPVersion := 4, Data := "x", IntfDirection := [] }, jclFrag]
        lineTemplate =
      (("", some "empty name"),
        [edgeFrag [], { Name := "", IPVersion := 4, Data := "x", IntfDirection := [] }]) :=
  (configHandler_cisco_first_error
      [edgeFrag [], { Name := "", IPVersion := 4, Data := "x", IntfDirection := [] }, jclFrag]
      lineTemplate).2
    [edgeFrag []] { Name := "", IPVersion := 4, Data := "x", IntfDirection := [] } [jclFrag]
    "empty name" rfl (by decide) (by decide)

/-! ## The removal of "\nexit" -/

theorem replaceScan_skip (old new : List Char) (k : Nat) (cs : List Char) :
    replaceScan old new k cs = replaceScan old new 0 (cs.drop k) := by
  induction k generalizing cs with
  | zero => simp
  | succ k ih =>
    cases cs with
    | nil => simp [replaceScan]
    | cons c cs => simp [replaceScan, ih cs]

theorem removeExit_nil : removeExit [] = [] := by
  simp [removeExit, replaceScan]

theorem removeExit_of_starts (text : List Char) (h : exitMark <+: text) :
    removeExit text = removeExit (text.drop 5) := by
  cases text with
  | nil =>
    obtain ⟨t, ht⟩ := h
    simp [exitMark] at ht
  | cons c cs =>
    have h' : exitMark.isPrefixOf (c :: cs) = true := List.isPrefixOf_iff_prefix.2 h
    unfold removeExit
    rw [replaceScan, if_pos h', replaceScan_skip]
    simp [exitMark]

theorem removeExit_cons (c : Char) (cs : List Char) (h : ¬ exitMark <+: c :: cs) :
    removeExit (c :: cs) = c :: removeExit cs := by
  have h' : ¬ exitMark.isPrefixOf (c :: cs) = true := fun hp => h (List.isPrefixOf_iff_prefix.1 hp)
  unfold removeExit
  rw [replaceScan, if_neg h']

theorem removeExit_starts_step (a : Char) (q text : List Char)
    (h : (a :: q) <+: removeExit text) :
    exitMark <+: text ∨ ∃ rest, text = a :: rest ∧ q <+: removeExit rest := by
  cases text with
  | nil =>
    rw [removeExit_nil] at h
    obtain ⟨t, ht⟩ := h
    simp at ht
  | cons c cs =>
    by_cases hp : exitMark <+: c :: cs
    · exact Or.inl hp
    · rw [removeExit_cons c cs hp, List.cons_prefix_cons] at h
      exact Or.inr ⟨cs, by rw [h.1], h.2⟩

theorem removeExit_cons_clean (c : Char) (cs : List Char)
    (hgood : ∀ p ∈ unfinishedMarks, ¬ (p.data ++ exitMark) <:+: c :: cs)
    (hp : ¬ exitMark <+: c :: cs) : ¬ exitMark <+: c :: removeExit cs := by
  intro h
  have h0 : exitMark = '\n' :: ['e', 'x', 'i', 't'] := rfl
  rw [h0, List.cons_prefix_cons] at h
  obtain ⟨hc, h1⟩ := h
  subst hc
  rcases removeExit_starts_step _ _ _ h1 with hx | ⟨s1, rfl, h2⟩
  · refine hgood "\n" (by simp [unfinishedMarks]) (List.IsPrefix.isInfix ?_)
    exact (List.prefix_append_right_inj ['\n']).2 hx
  rcases removeExit_starts_step _ _ _ h2 with hx | ⟨s2, rfl, h3⟩
  · refine hgood "\ne" (by simp [unfinishedMarks]) (List.IsPrefix.isInfix ?_)
    exact (List.prefix_append_right_inj ['\n', 'e']).2 hx
  rcases removeExit_starts_step _ _ _ h3 with hx | ⟨s3, rfl, h4⟩
  · refine hgood "\nex" (by simp [unfinishedMarks]) (List.IsPrefix.isInfix ?_)
    exact (List.prefix_append_right_inj ['\n', 'e', 'x']).2 hx
  rcases removeExit_starts_step _ _ _ h4 with hx | ⟨s4, rfl, -⟩
  · refine hgood "\nexi" (by simp [unfinishedMarks]) (List.IsPrefix.isInfix ?_)
    exact (List.prefix_append_right_inj ['\n', 'e', 'x', 'i']).2 hx
  · exact hp ⟨s4, rfl⟩

theorem removeExit_clean_aux (n : Nat) :
    ∀ text : List Char, text.length ≤ n →
      (∀ p ∈ unfinishedMarks, ¬ (p.data ++ exitMark) <:+: text) →
      ¬ exitMark <:+: removeExit text := by
  induction n with
  | zero =>
    intro text hlen _
    have : text = [] := List.length_eq_zero.1 (Nat.le_zero.1 hlen)
    subst this
    rw [removeExit_nil]
    intro h
    have := List.IsInfix.length_le h
    simp [exitMark] at this
  | succ n ih =>
    intro text hlen hgood
    cases text with
    | nil =>
      rw [removeExit_nil]
      intro h
      have := List.IsInfix.length_le h
      simp [exitMark] at this
    | cons c cs =>
      have hlen' : cs.length ≤ n := by
        simp only [List.length_cons] at hlen
        omega
      by_cases hp : exitMark <+: c :: cs
      · rw [removeExit_of_starts _ hp]
        apply ih
        · simp only [List.length_drop, List.length_cons]
          omega
        · intro p hpm hin
          exact hgood p hpm (hin.trans (List.IsSuffix.isInfix (List.drop_suffix 5 (c :: cs))))
      · rw [removeExit_cons c cs hp, List.infix_cons_iff]
        rintro (h | h)
        · exact removeExit_cons_clean c cs hgood hp h
        · exact ih cs hlen' (fun p hpm hin => hgood p hpm (List.infix_cons hin)) h

theorem Replace_exit_data (b : String) :
    (Replace b "\nexit" "").data = removeExit b.data := by
  unfold Replace
  rw [if_neg (by decide), if_neg (by decide)]
  rfl

theorem lineTemplate_ok :
    ∀ data ∈ [edgeFrag [], jclFrag], (lineTemplate.ExecuteTemplate "layout" data).2 = none := by
  decide

set_option maxRecDepth 100000 in
theorem lineTemplate_output_good :
    ∀ p ∈ unfinishedMarks,
      ¬ containsText (templateOutput lineTemplate [edgeFrag [], jclFrag]) (p ++ "\nexit") := by
  decide

/-- C4 as stated fails: on one fragment whose data is "\ne\nexitxit" and a
template that writes the data and succeeds, the text that `configHandler`
returns for "cisco" is "\nexit": removing the occurrence of "\nexit" joins the
text around it into a new one. -/
theorem configHandler_cisco_exit_remains :
    (∀ data ∈ [nestedExitFrag], (dataTemplate.ExecuteTemplate "layout" data).2 = none) ∧
    configHandler "cisco" [nestedExitFrag] dataTemplate = ("\nexit", none) ∧
    containsText (configHandler "cisco" [nestedExitFrag] dataTemplate).1 "\nexit" := by
  decide

/-- C4, amended: when the template succeeds on each fragment and the text it
wrote has no occurrence of "\nexit" directly after an unfinished beginning of
"\nexit" ("\n", "\ne", "\nex" or "\nexi"), the text that `configHandler`
returns for "cisco" has no occurrence of "\nexit". -/
theorem configHandler_cisco_no_exit (aclData : List acl) (aclTmpl : Template)
    (hok : ∀ data ∈ aclData, (aclTmpl.ExecuteTemplate "layout" data).2 = none)
    (hgood : ∀ p ∈ unfinishedMarks,
      ¬ containsText (templateOutput aclTmpl aclData) (p ++ "\nexit")) :
    ¬ containsText (configHandler "cisco" aclData aclTmpl).1 "\nexit" := by
  unfold configHandler
  rw [configHandlerRun_cisco_ok aclTmpl aclData hok]
  unfold containsText
  rw [Replace_exit_data]
  refine removeExit_clean_aux _ _ (Nat.le_refl _) ?_
  intro p hp hin
  apply hgood p hp
  unfold containsText
  rw [String.data_append]
  exact hin

/-- C4, amended, on two fragments and `lineTemplate`, which ends the text of
each fragment with the line "exit". -/
theorem configHandler_cisco_no_exit_witness :
    ((∀ data ∈ [edgeFrag [], jclFrag], (lineTemplate.ExecuteTemplate "layout" data).2 = none) ∧
    (∀ p ∈ unfinishedMarks,
      ¬ containsText (templateOutput lineTemplate [edgeFrag [], jclFrag]) (p ++ "\nexit"))) ∧
    ¬ containsText (configHandler "cisco" [edgeFrag [], jclFrag] lineTemplate).1 "\nexit" :=
  ⟨⟨lineTemplate_ok, lineTemplate_output_good⟩,
    configHandler_cisco_no_exit [edgeFrag [], jclFrag] lineTemplate
      lineTemplate_ok lineTemplate_output_good⟩

/-! ## `PreparePush` -/

theorem deviceStep_fst (vendorMap : GoMap String) (aclMap : GoMap (List acl))
    (aclTmpl : Template) (st : GoMap String × List Error) (dev : String) :
    (deviceStep vendorMap aclMap aclTmpl st dev).1 =
      GoMap.set st.1 dev (renderDevice vendorMap aclMap aclTmpl dev).1 := by
  unfold deviceStep renderDevice
  simp only
  split <;> rfl

theorem deviceStep_snd (vendorMap : GoMap String) (aclMap : GoMap (List acl))
    (aclTmpl : Template) (st : GoMap String × List Error) (dev : String) :
    (deviceStep vendorMap aclMap aclTmpl st dev).2 =
      st.2 ++ (renderDevice vendorMap aclMap aclTmpl dev).2.toList := by
  unfold deviceStep renderDevice
  simp only
  split <;> rename_i h <;> simp [h]

theorem foldl_deviceStep_snd (vendorMap : GoMap String) (aclMap : GoMap (List acl))
    (aclTmpl : Template) (ds : List String) (st : GoMap String × List Error) :
    (ds.foldl (deviceStep vendorMap aclMap aclTmpl) st).2 =
      st.2 ++ ds.filterMap (fun d => (renderDevice vendorMap aclMap aclTmpl d).2) := by
  induction ds generalizing st with
  | nil => simp
  | cons d ds ih =>
    rw [List.foldl_cons, ih, deviceStep_snd, List.filterMap_cons]
    cases (renderDevice vendorMap aclMap aclTmpl d).2 <;> simp

theorem foldl_deviceStep_get? (vendorMap : GoMap String) (aclMap : GoMap (List acl))
    (aclTmpl : Template) (ds : List String) (st : GoMap String × List Error) (d : String) :
    GoMap.get? (ds.foldl (deviceStep vendorMap aclMap aclTmpl) st).1 d =
      if d ∈ ds then some (renderDevice vendorMap aclMap aclTmpl d).1 else GoMap.get? st.1 d := by
  induction ds generalizing st with
  | nil => simp
  | cons x ds ih =>
    rw [List.foldl_cons, ih, deviceStep_fst, GoMap.get?_set]
    by_cases h1 : d ∈ ds
    · simp [h1]
    · by_cases h2 : x = d
      · subst h2
        simp [h1]
      · have h3 : ¬ d = x := fun h => h2 h.symm
        simp [h1, h2, h3]

theorem foldl_deviceStep_mem_keys (vendorMap : GoMap String) (aclMap : GoMap (List acl))
    (aclTmpl : Template) (ds : List String) (st : GoMap String × List Error) (d : String) :
    d ∈ GoMap.keys (ds.foldl (deviceStep vendorMap aclMap aclTmpl) st).1 ↔
      d ∈ ds ∨ d ∈ GoMap.keys st.1 := by
  rw [← GoMap.isSome_get?_iff, foldl_deviceStep_get?, ← GoMap.isSome_get?_iff]
  by_cases h : d ∈ ds <;> simp [h]

theorem foldl_deviceStep_nodup (vendorMap : GoMap String) (aclMap : GoMap (List acl))
    (aclTmpl : Template) (ds : List String) (st : GoMap String × List Error)
    (h : (GoMap.keys st.1).Nodup) :
    (GoMap.keys (ds.foldl (deviceStep vendorMap aclMap aclTmpl) st).1).Nodup := by
  induction ds generalizing st with
  | nil => simpa using h
  | cons x ds ih =>
    rw [List.foldl_cons]
    apply ih
    rw [deviceStep_fst]
    exact GoMap.nodup_keys_set _ _ _ h

theorem PreparePush_eq (parseFiles : String → Option Template) (order : Nat → List Nat)
    (pushPb : List ACLPushItem) (c g : GoMap (List acl)) (v : GoMap String) (t : Template)
    (hl : loadACL pushPb = some (c, g, v))
    (ht : loadTemplate parseFiles "cisco_acl" = some t) :
    PreparePush parseFiles order pushPb =
      some
        ([((rangeOrder (order 0) (GoMap.keys c)).foldl (deviceStep v c t) ([], [])).1,
          ((rangeOrder (order 1) (GoMap.keys g)).foldl (deviceStep v g t)
            ([], (rangeOrder (order 0) (GoMap.keys c)).filterMap
              (fun d => (renderDevice v c t d).2))).1],
         (rangeOrder (order 0) (GoMap.keys c)).filterMap (fun d => (renderDevice v c t d).2)
          ++ (rangeOrder (order 1) (GoMap.keys g)).filterMap
            (fun d => (renderDevice v g t d).2)) := by
  have hr : List.range 2 = [0, 1] := rfl
  unfold PreparePush
  rw [hl]
  simp only [ht, List.length_cons, List.length_nil, hr, List.foldl_cons, List.foldl_nil,
    ringStep, List.getD_cons_zero, List.getD_cons_succ, List.set_cons_zero, List.set_cons_succ,
    foldl_deviceStep_snd, List.nil_append, Nat.zero_add, Nat.reduceAdd]

theorem loadACL_nodup_keys (pushPb : List ACLPushItem) (c g : GoMap (List acl))
    (v : GoMap String) (h : loadACL pushPb = some (c, g, v)) :
    (GoMap.keys c).Nodup ∧ (GoMap.keys g).Nodup := by
  obtain ⟨hc, hg, -⟩ := loadACL_some pushPb c g v h
  rw [hc, hg]
  exact ⟨foldl_placePair_nodup _ _ _ (by simp [bucket, emptyMaps, GoMap.keys]),
    foldl_placePair_nodup _ _ _ (by simp [bucket, emptyMaps, GoMap.keys])⟩

theorem loadACL_mem_keys (pushPb : List ACLPushItem) (c g : GoMap (List acl))
    (v : GoMap String) (h : loadACL pushPb = some (c, g, v)) (d : String) :
    (d ∈ GoMap.keys c ↔
      ∃ item ∈ pushPb, ∃ ep ∈ item.EnforcePoint, ep.DeviceName = d ∧ hasCanaryTag ep.Tags) ∧
    (d ∈ GoMap.keys g ↔
      ∃ item ∈ pushPb, ∃ ep ∈ item.EnforcePoint, ep.DeviceName = d ∧ ¬ hasCanaryTag ep.Tags) := by
  obtain ⟨hc, hg, -⟩ := loadACL_some pushPb c g v h
  have key : ∀ ring : Bool, (∃ p ∈ pointPairs 0 pushPb, pairIn d ring p = true) ↔
      ∃ item ∈ pushPb, ∃ ep ∈ item.EnforcePoint, pointIn d ring ep = true := by
    intro ring
    have h1 : (∃ p ∈ pointPairs 0 pushPb, pairIn d ring p = true) ↔
        ∃ ep ∈ (pointPairs 0 pushPb).map (fun p => p.2.1), pointIn d ring ep = true := by
      constructor
      · rintro ⟨p, hp, hin⟩
        exact ⟨p.2.1, List.mem_map.2 ⟨p, hp, rfl⟩, hin⟩
      · rintro ⟨ep, hep, hin⟩
        obtain ⟨p, hp, rfl⟩ := List.mem_map.1 hep
        exact ⟨p, hp, hin⟩
    rw [h1, pointPairs_map_point]
    simp only [allPoints, List.mem_flatMap]
    constructor
    · rintro ⟨ep, ⟨item, hi, he⟩, hp⟩
      exact ⟨item, hi, ep, he, hp⟩
    · rintro ⟨item, hi, ep, he, hp⟩
      exact ⟨ep, ⟨item, hi, he⟩, hp⟩
  constructor
  · rw [hc, foldl_placePair_mem_keys, key true]
    simp [bucket, emptyMaps, GoMap.keys, pointIn]
  · rw [hg, foldl_placePair_mem_keys, key false]
    simp [bucket, emptyMaps, GoMap.keys, pointIn]

theorem failingPush_loadACL :
    loadACL failingPush = some (failingCanary, failingGlobal, failingVendor) := by
  decide

theorem onlyCiscoACL_load (aclTmpl : Template) :
    loadTemplate (onlyCiscoACL aclTmpl) "cisco_acl" = some aclTmpl := by
  unfold loadTemplate onlyCiscoACL
  rw [if_pos (by decide)]

/-- C7: when `loadACL` returns and the template file parses, `PreparePush`
returns two maps, and for each device of the canary bucket the first map holds
the text `configHandler` returns for the vendor of the device, its canary
fragments and the template, and likewise the second map for each device of the
global bucket; the text held is empty when that render returns an error.
Nothing is assumed about the render of any other device or ring. -/
theorem PreparePush_device_text (parseFiles : String → Option Template)
    (order : Nat → List Nat) (pushPb : List ACLPushItem) (c g : GoMap (List acl))
    (v : GoMap String) (t : Template)
    (hl : loadACL pushPb = some (c, g, v))
    (ht : loadTemplate parseFiles "cisco_acl" = some t) :
    ∃ r0 r1 errs, PreparePush parseFiles order pushPb = some ([r0, r1], errs) ∧
      (∀ d ∈ GoMap.keys c,
        GoMap.get? r0 d = some (configHandler (GoMap.getD v d "") (GoMap.getD c d []) t).1 ∧
        ((configHandler (GoMap.getD v d "") (GoMap.getD c d []) t).2 ≠ none →
          GoMap.get? r0 d = some "")) ∧
      (∀ d ∈ GoMap.keys g,
        GoMap.get? r1 d = some (configHandler (GoMap.getD v d "") (GoMap.getD g d []) t).1 ∧
        ((configHandler (GoMap.getD v d "") (GoMap.getD g d []) t).2 ≠ none →
          GoMap.get? r1 d = some "")) := by
  refine ⟨_, _, _, PreparePush_eq parseFiles order pushPb c g v t hl ht, ?_, ?_⟩
  · intro d hd
    have hm : d ∈ rangeOrder (order 0) (GoMap.keys c) :=
      (rangeOrder_perm (order 0) (GoMap.keys c)).mem_iff.2 hd
    have h1 := foldl_deviceStep_get? v c t (rangeOrder (order 0) (GoMap.keys c)) ([], []) d
    rw [if_pos hm] at h1
    refine ⟨h1, fun he => ?_⟩
    rw [h1]
    exact congrArg some (configHandler_text_of_error _ _ _ he)
  · intro d hd
    have hm : d ∈ rangeOrder (order 1) (GoMap.keys g) :=
      (rangeOrder_perm (order 1) (GoMap.keys g)).mem_iff.2 hd
    have h1 := foldl_deviceStep_get? v g t (rangeOrder (order 1) (GoMap.keys g))
      ([], (rangeOrder (order 0) (GoMap.keys c)).filterMap (fun d => (renderDevice v c t d).2)) d
    rw [if_pos hm] at h1
    refine ⟨h1, fun he => ?_⟩
    rw [h1]
    exact congrArg some (configHandler_text_of_error _ _ _ he)

/-- C7, on `failingPush`, where the render of "bad" fails in the canary ring:
the texts of "good" and of "bad" in the global ring are those of their own
renders. -/
theorem PreparePush_device_text_witness :
    (loadACL failingPush = some (failingCanary, failingGlobal, failingVendor) ∧
      loadTemplate (onlyCiscoACL lineTemplate) "cisco_acl" = some lineTemplate) ∧
    ∃ r0 r1 errs,
      PreparePush (onlyCiscoACL lineTemplate) swapOrder failingPush = some ([r0, r1], errs) ∧
      (∀ d ∈ GoMap.keys failingCanary,
        GoMap.get? r0 d = some (configHandler (GoMap.getD failingVendor d "")
          (GoMap.getD failingCanary d []) lineTemplate).1 ∧
        ((configHandler (GoMap.getD failingVendor d "")
            (GoMap.getD failingCanary d []) lineTemplate).2 ≠ none →
          GoMap.get? r0 d = some "")) ∧
      (∀ d ∈ GoMap.keys failingGlobal,
        GoMap.get? r1 d = some (configHandler (GoMap.getD failingVendor d "")
          (GoMap.getD failingGlobal d []) lineTemplate).1 ∧
        ((configHandler (GoMap.getD failingVendor d "")
            (GoMap.getD failingGlobal d []) lineTemplate).2 ≠ none →
          GoMap.get? r1 d = some "")) :=
  ⟨⟨failingPush_loadACL, onlyCiscoACL_load lineTemplate⟩,
    PreparePush_device_text (onlyCiscoACL lineTemplate) swapOrder failingPush
      failingCanary failingGlobal failingVendor lineTemplate
      failingPush_loadACL (onlyCiscoACL_load lineTemplate)⟩

/-- C8: when `loadACL` returns and the template file parses, the error list of
`PreparePush` is the list of the errors of the failing renders of the devices
of the canary bucket, in the order of visit, followed by those of the global
bucket; each bucket has each of its devices once, so the list has one entry for
each (ring, device) pair whose render returned an error and no other entry, and
it is empty exactly when no render failed. -/
theorem PreparePush_error_list (parseFiles : String → Option Template)
    (order : Nat → List Nat) (pushPb : List ACLPushItem) (c g : GoMap (List acl))
    (v : GoMap String) (t : Template)
    (hl : loadACL pushPb = some (c, g, v))
    (ht : loadTemplate parseFiles "cisco_acl" = some t) :
    ∃ results errs, PreparePush parseFiles order pushPb = some (results, errs) ∧
      (GoMap.keys c).Nodup ∧ (GoMap.keys g).Nodup ∧
      errs =
        (rangeOrder (order 0) (GoMap.keys c)).filterMap
            (fun d => (configHandler (GoMap.getD v d "") (GoMap.getD c d []) t).2)
          ++ (rangeOrder (order 1) (GoMap.keys g)).filterMap
            (fun d => (configHandler (GoMap.getD v d "") (GoMap.getD g d []) t).2) ∧
      errs.Perm
        ((GoMap.keys c).filterMap
            (fun d => (configHandler (GoMap.getD v d "") (GoMap.getD c d []) t).2)
          ++ (GoMap.keys g).filterMap
            (fun d => (configHandler (GoMap.getD v d "") (GoMap.getD g d []) t).2)) ∧
      (errs = [] ↔
        (∀ d ∈ GoMap.keys c,
          (configHandler (GoMap.getD v d "") (GoMap.getD c d []) t).2 = none) ∧
        (∀ d ∈ GoMap.keys g,
          (configHandler (GoMap.getD v d "") (GoMap.getD g d []) t).2 = none)) := by
  obtain ⟨hnc, hng⟩ := loadACL_nodup_keys pushPb c g v hl
  refine ⟨_, _, PreparePush_eq parseFiles order pushPb c g v t hl ht, hnc, hng, rfl, ?_, ?_⟩
  · exact List.Perm.append
      ((rangeOrder_perm (order 0) (GoMap.keys c)).filterMap _)
      ((rangeOrder_perm (order 1) (GoMap.keys g)).filterMap _)
  · rw [List.append_eq_nil, List.filterMap_eq_nil_iff, List.filterMap_eq_nil_iff]
    constructor
    · rintro ⟨h1, h2⟩
      exact ⟨fun d hd => h1 d ((rangeOrder_perm (order 0) (GoMap.keys c)).mem_iff.2 hd),
        fun d hd => h2 d ((rangeOrder_perm (order 1) (GoMap.keys g)).mem_iff.2 hd)⟩
    · rintro ⟨h1, h2⟩
      exact ⟨fun d hd => h1 d ((rangeOrder_perm (order 0) (GoMap.keys c)).mem_iff.1 hd),
        fun d hd => h2 d ((rangeOrder_perm (order 1) (GoMap.keys g)).mem_iff.1 hd)⟩

/-- C8, on `failingPush`: the one failing render, of "bad" in the canary ring,
gives the one entry of the error list. -/
theorem PreparePush_error_list_witness :
    (loadACL failingPush = some (failingCanary, failingGlobal, failingVendor) ∧
      loadTemplate (onlyCiscoACL lineTemplate) "cisco_acl" = some lineTemplate) ∧
    ∃ results errs,
      PreparePush (onlyCiscoACL lineTemplate) swapOrder failingPush = some (results, errs) ∧
      (GoMap.keys failingCanary).Nodup ∧ (GoMap.keys failingGlobal).Nodup ∧
      errs =
        (rangeOrder (swapOrder 0) (GoMap.keys failingCanary)).filterMap
            (fun d => (configHandler (GoMap.getD failingVendor d "")
              (GoMap.getD failingCanary d []) lineTemplate).2)
          ++ (rangeOrder (swapOrder 1) (GoMap.keys failingGlobal)).filterMap
            (fun d => (configHandler (GoMap.getD failingVendor d "")
              (GoMap.getD failingGlobal d []) lineTemplate).2) ∧
      errs.Perm
        ((GoMap.keys failingCanary).filterMap
            (fun d => (configHandler (GoMap.getD failingVendor d "")
              (GoMap.getD failingCanary d []) lineTemplate).2)
          ++ (GoMap.keys failingGlobal).filterMap
            (fun d => (configHandler (GoMap.getD failingVendor d "")
              (GoMap.getD failingGlobal d []) lineTemplate).2)) ∧
      (errs = [] ↔
        (∀ d ∈ GoMap.keys failingCanary,
          (configHandler (GoMap.getD failingVendor d "")
            (GoMap.getD failingCanary d []) lineTemplate).2 = none) ∧
        (∀ d ∈ GoMap.keys failingGlobal,
          (configHandler (GoMap.getD failingVendor d "")
            (GoMap.getD failingGlobal d []) lineTemplate).2 = none)) :=
  ⟨⟨failingPush_loadACL, onlyCiscoACL_load lineTemplate⟩,
    PreparePush_error_list (onlyCiscoACL lineTemplate) swapOrder failingPush
      failingCanary failingGlobal failingVendor lineTemplate
      failingPush_loadACL (onlyCiscoACL_load lineTemplate)⟩

/-- C9: when `loadACL` returns and the template file parses, `PreparePush`
returns two maps; the keys of the first are the devices named by some
enforcement point with a tag (Canary, True), the keys of the second the devices
named by some enforcement point without such a tag, each key once. So a device
with a point of each kind is a key of both maps. -/
theorem PreparePush_key_sets (parseFiles : String → Option Template)
    (order : Nat → List Nat) (pushPb : List ACLPushItem) (c g : GoMap (List acl))
    (v : GoMap String) (t : Template)
    (hl : loadACL pushPb = some (c, g, v))
    (ht : loadTemplate parseFiles "cisco_acl" = some t) :
    ∃ r0 r1 errs, PreparePush parseFiles order pushPb = some ([r0, r1], errs) ∧
      (GoMap.keys r0).Nodup ∧ (GoMap.keys r1).Nodup ∧
      (∀ d, d ∈ GoMap.keys r0 ↔
        ∃ item ∈ pushPb, ∃ ep ∈ item.EnforcePoint,
          ep.DeviceName = d ∧ hasCanaryTag ep.Tags) ∧
      (∀ d, d ∈ GoMap.keys r1 ↔
        ∃ item ∈ pushPb, ∃ ep ∈ item.EnforcePoint,
          ep.DeviceName = d ∧ ¬ hasCanaryTag ep.Tags) ∧
      (∀ d,
        (∃ item ∈ pushPb, ∃ ep ∈ item.EnforcePoint,
          ep.DeviceName = d ∧ hasCanaryTag ep.Tags) →
        (∃ item ∈ pushPb, ∃ ep ∈ item.EnforcePoint,
          ep.DeviceName = d ∧ ¬ hasCanaryTag ep.Tags) →
        d ∈ GoMap.keys r0 ∧ d ∈ GoMap.keys r1) := by
  have k0 : ∀ d, d ∈ GoMap.keys
      ((rangeOrder (order 0) (GoMap.keys c)).foldl (deviceStep v c t) ([], [])).1 ↔
      ∃ item ∈ pushPb, ∃ ep ∈ item.EnforcePoint,
        ep.DeviceName = d ∧ hasCanaryTag ep.Tags := by
    intro d
    rw [foldl_deviceStep_mem_keys, (rangeOrder_perm (order 0) (GoMap.keys c)).mem_iff,
      (loadACL_mem_keys pushPb c g v hl d).1]
    simp [GoMap.keys]
  have k1 : ∀ d, d ∈ GoMap.keys
      ((rangeOrder (order 1) (GoMap.keys g)).foldl (deviceStep v g t)
        ([], (rangeOrder (order 0) (GoMap.keys c)).filterMap
          (fun d => (renderDevice v c t d).2))).1 ↔
      ∃ item ∈ pushPb, ∃ ep ∈ item.EnforcePoint,
        ep.DeviceName = d ∧ ¬ hasCanaryTag ep.Tags := by
    intro d
    rw [foldl_deviceStep_mem_keys, (rangeOrder_perm (order 1) (GoMap.keys g)).mem_iff,
      (loadACL_mem_keys pushPb c g v hl d).2]
    simp [GoMap.keys]
  refine ⟨_, _, _, PreparePush_eq parseFiles order pushPb c g v t hl ht, ?_, ?_, k0, k1, ?_⟩
  · exact foldl_deviceStep_nodup _ _ _ _ _ (by simp [GoMap.keys])
  · exact foldl_deviceStep_nodup _ _ _ _ _ (by simp [GoMap.keys])
  · intro d h0 h1
    exact ⟨(k0 d).2 h0, (k1 d).2 h1⟩

/-- C9, on `mixedPush`, whose device "r1" has a point with the canary tag and
points without it. -/
theorem PreparePush_key_sets_witness :
    (loadACL mixedPush = some (mixedCanary, mixedGlobal, mixedVendor) ∧
      loadTemplate (onlyCiscoACL lineTemplate) "cisco_acl" = some lineTemplate) ∧
    ∃ r0 r1 errs,
      PreparePush (onlyCiscoACL lineTemplate) swapOrder mixedPush = some ([r0, r1], errs) ∧
      (GoMap.keys r0).Nodup ∧ (GoMap.keys r1).Nodup ∧
      (∀ d, d ∈ GoMap.keys r0 ↔
        ∃ item ∈ mixedPush, ∃ ep ∈ item.EnforcePoint,
          ep.DeviceName = d ∧ hasCanaryTag ep.Tags) ∧
      (∀ d, d ∈ GoMap.keys r1 ↔
        ∃ item ∈ mixedPush, ∃ ep ∈ item.EnforcePoint,
          ep.DeviceName = d ∧ ¬ hasCanaryTag ep.Tags) ∧
      (∀ d,
        (∃ item ∈ mixedPush, ∃ ep ∈ item.EnforcePoint,
          ep.DeviceName = d ∧ hasCanaryTag ep.Tags) →
        (∃ item ∈ mixedPush, ∃ ep ∈ item.EnforcePoint,
          ep.DeviceName = d ∧ ¬ hasCanaryTag ep.Tags) →
        d ∈ GoMap.keys r0 ∧ d ∈ GoMap.keys r1) :=
  ⟨⟨mixedPush_loadACL, onlyCiscoACL_load lineTemplate⟩,
    PreparePush_key_sets (onlyCiscoACL lineTemplate) swapOrder mixedPush
      mixedCanary mixedGlobal mixedVendor lineTemplate
      mixedPush_loadACL (onlyCiscoACL_load lineTemplate)⟩

/-! ## The vendor map -/

theorem foldl_item_vendor (item : ACLPushItem) (ipVer : Int) (eps : List ACLEnforcementPoint)
    (m : ACLMaps) (d : String) :
    GoMap.get? ((eps.map (fun ep => (item, ep, ipVer))).foldl placePair m).vendorMap d =
      if ∃ ep ∈ eps, ep.DeviceName = d then some item.Vendor else GoMap.get? m.vendorMap d := by
  induction eps generalizing m with
  | nil => simp
  | cons ep eps ih =>
    rw [List.map_cons, List.foldl_cons, ih, placePair_vendorMap, GoMap.get?_set]
    by_cases h1 : ∃ ep' ∈ eps, ep'.DeviceName = d
    · have h2 : ∃ ep' ∈ ep :: eps, ep'.DeviceName = d := by
        obtain ⟨ep', he, hd⟩ := h1
        exact ⟨ep', List.mem_cons_of_mem _ he, hd⟩
      rw [if_pos h1, if_pos h2]
    · rw [if_neg h1]
      by_cases h3 : ep.DeviceName = d
      · have h2 : ∃ ep' ∈ ep :: eps, ep'.DeviceName = d := ⟨ep, List.mem_cons_self _ _, h3⟩
        rw [if_pos h2]
        simp [h3]
      · have h2 : ¬ ∃ ep' ∈ ep :: eps, ep'.DeviceName = d := by
          rintro ⟨ep', he, hd⟩
          rcases List.mem_cons.1 he with rfl | he
          · exact h3 hd
          · exact h1 ⟨ep', he, hd⟩
        rw [if_neg h2]
        simp [h3]

theorem foldl_pointPairs_vendor (items : List ACLPushItem) (ipVer : Int) (m : ACLMaps)
    (d : String) :
    GoMap.get? ((pointPairs ipVer items).foldl placePair m).vendorMap d =
      (((items.filter (fun item => decide (namesDevice d item))).getLast?).map
        (fun item => item.Vendor)).or (GoMap.get? m.vendorMap d) := by
  induction items generalizing ipVer m with
  | nil => simp [pointPairs]
  | cons item rest ih =>
    rw [pointPairs, List.foldl_append, ih, foldl_item_vendor, List.filter_cons]
    by_cases hn : namesDevice d item
    · have hn' : ∃ ep ∈ item.EnforcePoint, ep.DeviceName = d := hn
      rw [if_pos hn']
      simp only [hn, decide_True, if_true, List.getLast?_cons]
      cases (rest.filter (fun item => decide (namesDevice d item))).getLast? <;> simp
    · have hn' : ¬ ∃ ep ∈ item.EnforcePoint, ep.DeviceName = d := hn
      rw [if_neg hn']
      simp [hn]

/-- C10: when `loadACL` returns, the vendor map holds for a device the vendor
of the last item, in input order, that has an enforcement point naming the
device, whatever the vendors of the earlier items naming it, and it holds
nothing for a device that no enforcement point names. -/
theorem loadACL_vendor_of_last_item (pushPb : List ACLPushItem)
    (c g : GoMap (List acl)) (v : GoMap String) (h : loadACL pushPb = some (c, g, v))
    (d : String) :
    GoMap.get? v d =
      ((pushPb.filter (fun item => decide (namesDevice d item))).getLast?).map
        (fun item => item.Vendor) := by
  obtain ⟨-, -, hv⟩ := loadACL_some pushPb c g v h
  rw [hv, foldl_pointPairs_vendor]
  simp [emptyMaps, GoMap.get?]

/-- C10, on `mixedPush` and the device "r1", named by the cisco item and then
by the juniper item. -/
theorem loadACL_vendor_of_last_item_witness :
    loadACL mixedPush = some (mixedCanary, mixedGlobal, mixedVendor) ∧
    GoMap.get? mixedVendor "r1" =
      ((mixedPush.filter (fun item => decide (namesDevice "r1" item))).getLast?).map
        (fun item => item.Vendor) :=
  ⟨mixedPush_loadACL,
    loadACL_vendor_of_last_item mixedPush mixedCanary mixedGlobal mixedVendor
      mixedPush_loadACL "r1"⟩

/-! ## Names and the failure of the classification -/

theorem splitChars_ne_nil (sep : Char) (s : List Char) : splitChars sep s ≠ [] := by
  cases s with
  | nil => simp [splitChars]
  | cons c cs =>
    unfold splitChars
    split
    · simp
    · split <;> simp

theorem joinSegs_cons_cons (sep c : Char) (seg : List Char) (segs : List (List Char)) :
    joinSegs sep ((c :: seg) :: segs) = c :: joinSegs sep (seg :: segs) := by
  cases segs <;> simp [joinSegs]

theorem splitChars_join (sep : Char) (s : List Char) :
    joinSegs sep (splitChars sep s) = s := by
  induction s with
  | nil => simp [splitChars, joinSegs]
  | cons c cs ih =>
    unfold splitChars
    by_cases h : c = sep
    · rw [if_pos h]
      rcases hs : splitChars sep cs with _ | ⟨seg, segs⟩
      · exact absurd hs (splitChars_ne_nil sep cs)
      · rw [hs] at ih
        simp [joinSegs, ih, h]
    · rw [if_neg h]
      rcases hs : splitChars sep cs with _ | ⟨seg, segs⟩
      · exact absurd hs (splitChars_ne_nil sep cs)
      · rw [hs] at ih
        simp only
        rw [joinSegs_cons_cons, ih]

theorem splitChars_no_sep (sep : Char) (s : List Char) :
    ∀ seg ∈ splitChars sep s, sep ∉ seg := by
  induction s with
  | nil => simp [splitChars]
  | cons c cs ih =>
    unfold splitChars
    by_cases h : c = sep
    · rw [if_pos h]
      intro seg hseg
      rcases List.mem_cons.1 hseg with rfl | hseg
      · simp
      · exact ih seg hseg
    · rw [if_neg h]
      rcases hs : splitChars sep cs with _ | ⟨seg0, segs⟩
      · exact absurd hs (splitChars_ne_nil sep cs)
      · rw [hs] at ih
        simp only
        intro seg hseg
        rcases List.mem_cons.1 hseg with rfl | hseg
        · intro hmem
          rcases List.mem_cons.1 hmem with h1 | h1
          · exact h h1.symm
          · exact ih seg0 (List.mem_cons_self _ _) h1
        · exact ih seg (List.mem_cons_of_mem _ hseg)

theorem splitChars_length (sep : Char) (s : List Char) :
    (splitChars sep s).length = s.count sep + 1 := by
  induction s with
  | nil => simp [splitChars]
  | cons c cs ih =>
    unfold splitChars
    by_cases h : c = sep
    · rw [if_pos h]
      subst h
      simp [ih]
    · rw [if_neg h]
      have hne : ¬ (c == sep) = true := by simpa using h
      rcases hs : splitChars sep cs with _ | ⟨seg0, segs⟩
      · exact absurd hs (splitChars_ne_nil sep cs)
      · rw [hs] at ih
        simp only [List.length_cons] at ih ⊢
        rw [List.count_cons, if_neg hne]
        omega

theorem Split_length (s : String) (sep : Char) :
    (Split s sep).length = s.data.count sep + 1 := by
  unfold Split
  rw [List.length_map, splitChars_length]

theorem unitLoop_eq (units : List ACLEnforcementPoint_ACLEnforcementUnit)
    (intfs : List intfDir) :
    unitLoop units intfs =
      intfs ++ units.map (fun unit => { Intf := unit.Name, Direction := unit.Direction }) := by
  induction units generalizing intfs with
  | nil => simp [unitLoop]
  | cons unit rest ih => simp [unitLoop, ih]

theorem unitIntfs_eq (units : List ACLEnforcementPoint_ACLEnforcementUnit) :
    unitIntfs units =
      units.map (fun unit => { Intf := unit.Name, Direction := unit.Direction }) := by
  unfold unitIntfs
  rw [unitLoop_eq]
  rfl

theorem itemName_eq_none_iff (item : ACLPushItem) :
    itemName item = none ↔ malformedName item := by
  unfold itemName malformedName
  by_cases h : item.Vendor = "cisco"
  · rw [if_pos h, List.getElem?_eq_none_iff]
    constructor
    · intro h1
      exact ⟨h, by omega⟩
    · rintro ⟨-, h1⟩
      omega
  · rw [if_neg h]
    simp [h]

theorem itemName_eq_fragmentName (item : ACLPushItem) (h : (itemName item).isSome) :
    itemName item = some (fragmentName item) := by
  unfold itemName fragmentName at *
  by_cases hv : item.Vendor = "cisco"
  · rw [if_pos hv] at h ⊢
    rw [if_pos hv]
    cases hx : (Split item.AclName '.')[2]? with
    | none =>
      rw [hx] at h
      exact absurd h (by simp)
    | some n => simp [List.getD, hx]
  · rw [if_neg hv, if_neg hv]

theorem loadACL_eq_none_iff (pushPb : List ACLPushItem) :
    loadACL pushPb = none ↔ ∃ item ∈ pushPb, malformedName item := by
  rw [loadACL_eq]
  by_cases h : pushPb.all (fun item => (itemName item).isSome) = true
  · rw [if_pos h]
    simp only [false_iff, reduceCtorEq]
    rintro ⟨item, hi, hm⟩
    have h1 := List.all_eq_true.1 h item hi
    rw [(itemName_eq_none_iff item).2 hm] at h1
    exact absurd h1 (by simp)
  · rw [if_neg h]
    simp only [true_iff]
    rw [List.all_eq_true] at h
    push_neg at h
    obtain ⟨item, hi, hn⟩ := h
    refine ⟨item, hi, (itemName_eq_none_iff item).1 ?_⟩
    cases hx : itemName item with
    | none => rfl
    | some n =>
      rw [hx] at hn
      exact absurd rfl hn

theorem wellNamedPush_loadACL :
    loadACL wellNamedPush = some ([], wellNamedGlobal, wellNamedVendor) := by
  decide

theorem foldl_placePair_names (pushPb : List ACLPushItem) (ring : Bool) (d : String)
    (hall : ∀ item ∈ pushPb, (itemName item).isSome) :
    (GoMap.getD (bucket ((pointPairs 0 pushPb).foldl placePair emptyMaps) ring) d []).map
        (fun frag => frag.Name) =
      ((pointPairs 0 pushPb).filter (pairIn d ring)).map (fun p => fragmentName p.1) := by
  have hmem : ∀ (ip : Int) (items : List ACLPushItem), (∀ item ∈ items, item ∈ pushPb) →
      ∀ p ∈ pointPairs ip items, p.1 ∈ pushPb := by
    intro ip items
    induction items generalizing ip with
    | nil => simp [pointPairs]
    | cons item rest ih =>
      intro hsub p hp
      rw [pointPairs, List.mem_append] at hp
      rcases hp with hp | hp
      · obtain ⟨ep, -, rfl⟩ := List.mem_map.1 hp
        exact hsub item (List.mem_cons_self _ _)
      · exact ih _ (fun it hit => hsub it (List.mem_cons_of_mem _ hit)) p hp
  rw [foldl_placePair_getD]
  have h0 : GoMap.getD (bucket emptyMaps ring) d [] = [] := by
    cases ring <;> rfl
  rw [h0, List.nil_append, List.map_map]
  apply List.map_congr_left
  intro p hp
  have hp' : p.1 ∈ pushPb :=
    hmem 0 pushPb (fun _ hi => hi) p (List.mem_of_mem_filter hp)
  simp only [Function.comp, pairFragment]
  rw [itemName_eq_fragmentName p.1 (hall p.1 hp')]
  rfl

/-- C11: when `loadACL` returns, the name of a cisco item splits at "." into at
least three segments and the names of the fragments stored for a device in a
ring are, pair by pair in input order, the third segment of the name of the
item for a cisco item and the raw name for an item of any other vendor. -/
theorem loadACL_fragment_names (pushPb : List ACLPushItem)
    (c g : GoMap (List acl)) (v : GoMap String) (h : loadACL pushPb = some (c, g, v)) :
    (∀ item ∈ pushPb, item.Vendor = "cisco" →
      ∃ a b n rest, Split item.AclName '.' = a :: b :: n :: rest ∧ fragmentName item = n) ∧
    (∀ item ∈ pushPb, item.Vendor ≠ "cisco" → fragmentName item = item.AclName) ∧
    (∀ d : String,
      (GoMap.getD c d []).map (fun frag => frag.Name) =
        ((pointPairs 0 pushPb).filter
          (fun p => decide (p.2.1.DeviceName = d ∧ hasCanaryTag p.2.1.Tags))).map
          (fun p => fragmentName p.1) ∧
      (GoMap.getD g d []).map (fun frag => frag.Name) =
        ((pointPairs 0 pushPb).filter
          (fun p => decide (p.2.1.DeviceName = d ∧ ¬ hasCanaryTag p.2.1.Tags))).map
          (fun p => fragmentName p.1)) := by
  have hall : ∀ item ∈ pushPb, (itemName item).isSome := by
    intro item hi
    cases hx : itemName item with
    | some n => rfl
    | none =>
      have : loadACL pushPb = none :=
        (loadACL_eq_none_iff pushPb).2 ⟨item, hi, (itemName_eq_none_iff item).1 hx⟩
      rw [this] at h
      exact absurd h (by simp)
  obtain ⟨hc, hg, -⟩ := loadACL_some pushPb c g v h
  refine ⟨?_, ?_, fun d => ⟨?_, ?_⟩⟩
  · intro item hi hv
    have h1 := hall item hi
    unfold itemName at h1
    rw [if_pos hv] at h1
    rcases hs : Split item.AclName '.' with _ | ⟨a, _ | ⟨b, _ | ⟨n, rest⟩⟩⟩
    · rw [hs] at h1
      exact absurd h1 (by simp)
    · rw [hs] at h1
      exact absurd h1 (by simp)
    · rw [hs] at h1
      exact absurd h1 (by simp)
    · exact ⟨a, b, n, rest, rfl, by simp [fragmentName, hv, hs]⟩
  · intro item _ hv
    simp [fragmentName, hv]
  · have hf : (fun p : ACLPushItem × ACLEnforcementPoint × Int =>
        decide (p.2.1.DeviceName = d ∧ hasCanaryTag p.2.1.Tags)) = pairIn d true := by
      funext p
      simp [pairIn, pointIn]
    rw [hc, hf]
    exact foldl_placePair_names pushPb true d hall
  · have hf : (fun p : ACLPushItem × ACLEnforcementPoint × Int =>
        decide (p.2.1.DeviceName = d ∧ ¬ hasCanaryTag p.2.1.Tags)) = pairIn d false := by
      funext p
      simp [pairIn, pointIn]
    rw [hg, hf]
    exact foldl_placePair_names pushPb false d hall

/-- C11, on the test items `wellNamedPush`: the cisco item ".acl." gives the
empty name, the juniper items "jcl" and "u.srx" keep their names. -/
theorem loadACL_fragment_names_witness :
    loadACL wellNamedPush = some ([], wellNamedGlobal, wellNamedVendor) ∧
    ((∀ item ∈ wellNamedPush, item.Vendor = "cisco" →
      ∃ a b n rest, Split item.AclName '.' = a :: b :: n :: rest ∧ fragmentName item = n) ∧
    (∀ item ∈ wellNamedPush, item.Vendor ≠ "cisco" → fragmentName item = item.AclName) ∧
    (∀ d : String,
      (GoMap.getD ([] : GoMap (List acl)) d []).map (fun frag => frag.Name) =
        ((pointPairs 0 wellNamedPush).filter
          (fun p => decide (p.2.1.DeviceName = d ∧ hasCanaryTag p.2.1.Tags))).map
          (fun p => fragmentName p.1) ∧
      (GoMap.getD wellNamedGlobal d []).map (fun frag => frag.Name) =
        ((pointPairs 0 wellNamedPush).filter
          (fun p => decide (p.2.1.DeviceName = d ∧ ¬ hasCanaryTag p.2.1.Tags))).map
          (fun p => fragmentName p.1))) :=
  ⟨wellNamedPush_loadACL,
    loadACL_fragment_names wellNamedPush [] wellNamedGlobal wellNamedVendor
      wellNamedPush_loadACL⟩

/-- C12: `loadACL` panics exactly when some item is a cisco item whose name
splits at "." into fewer than three segments, that is, has fewer than two
dots, whatever its enforcement points; `PreparePush` panics whenever `loadACL`
does, and when the template file parses it panics for no other input. -/
theorem loadACL_panics_iff (pushPb : List ACLPushItem) :
    (loadACL pushPb = none ↔
      ∃ item ∈ pushPb, item.Vendor = "cisco" ∧ (Split item.AclName '.').length < 3) ∧
    (∀ item : ACLPushItem,
      (Split item.AclName '.').length < 3 ↔ item.AclName.data.count '.' < 2) ∧
    (∀ (parseFiles : String → Option Template) (order : Nat → List Nat),
      loadACL pushPb = none → PreparePush parseFiles order pushPb = none) ∧
    (∀ (parseFiles : String → Option Template) (order : Nat → List Nat) (t : Template),
      loadTemplate parseFiles "cisco_acl" = some t →
        (PreparePush parseFiles order pushPb = none ↔ loadACL pushPb = none)) := by
  refine ⟨loadACL_eq_none_iff pushPb, ?_, ?_, ?_⟩
  · intro item
    rw [Split_length]
    omega
  · intro parseFiles order h
    unfold PreparePush
    rw [h]
  · intro parseFiles order t ht
    constructor
    · intro h
      cases hl : loadACL pushPb with
      | none => rfl
      | some r =>
        obtain ⟨c, g, v⟩ := r
        rw [PreparePush_eq parseFiles order pushPb c g v t hl ht] at h
        exact absurd h (by simp)
    · intro h
      unfold PreparePush
      rw [h]

/-- C12, on a single cisco item named "go_out" that has no enforcement point. -/
theorem loadACL_panics_iff_witness : loadACL [dotlessItem] = none :=
  (loadACL_panics_iff [dotlessItem]).1.2
    ⟨dotlessItem, List.mem_cons_self _ _, by decide, by decide⟩

/-- C13 fails on the code: on the input of the test case "multiple_ACL", whose
cisco items are named "go_out" and "n", `PreparePush` panics, whatever the
template files and the order of visit; it returns no maps and no error list. -/
theorem PreparePush_multipleACL_panics (parseFiles : String → Option Template)
    (order : Nat → List Nat) :
    loadACL multipleACL = none ∧ PreparePush parseFiles order multipleACL = none := by
  have h : loadACL multipleACL = none := by decide
  refine ⟨h, ?_⟩
  unfold PreparePush
  rw [h]

/-! ## Interfaces of a fragment -/

theorem twoUnitPush_loadACL :
    loadACL twoUnitPush = some ([], twoUnitGlobal, twoUnitVendor) := by
  decide

/-- C14: when `loadACL` returns, the fragments stored for a device in a ring
correspond one to one, in order, to the (item, enforcement point) pairs of the
device and ring, and the `IntfDirection` list of each fragment is the list of
the (name, direction) of the units of its point, in the order of the units: as
long as the units, and empty for a point without units. -/
theorem loadACL_fragment_intfs (pushPb : List ACLPushItem)
    (c g : GoMap (List acl)) (v : GoMap String) (h : loadACL pushPb = some (c, g, v))
    (d : String) :
    (GoMap.getD c d []).map (fun frag => frag.IntfDirection) =
      ((pointPairs 0 pushPb).filter
        (fun p => decide (p.2.1.DeviceName = d ∧ hasCanaryTag p.2.1.Tags))).map
        (fun p => p.2.1.Units.map
          (fun unit => ({ Intf := unit.Name, Direction := unit.Direction } : intfDir))) ∧
    (GoMap.getD g d []).map (fun frag => frag.IntfDirection) =
      ((pointPairs 0 pushPb).filter
        (fun p => decide (p.2.1.DeviceName = d ∧ ¬ hasCanaryTag p.2.1.Tags))).map
        (fun p => p.2.1.Units.map
          (fun unit => ({ Intf := unit.Name, Direction := unit.Direction } : intfDir))) := by
  obtain ⟨hc, hg, -⟩ := loadACL_some pushPb c g v h
  have key : ∀ ring : Bool,
      (GoMap.getD (bucket ((pointPairs 0 pushPb).foldl placePair emptyMaps) ring) d []).map
          (fun frag => frag.IntfDirection) =
        ((pointPairs 0 pushPb).filter (pairIn d ring)).map
          (fun p => p.2.1.Units.map
            (fun unit => ({ Intf := unit.Name, Direction := unit.Direction } : intfDir))) := by
    intro ring
    rw [foldl_placePair_getD]
    have h0 : GoMap.getD (bucket emptyMaps ring) d [] = [] := by
      cases ring <;> rfl
    rw [h0, List.nil_append, List.map_map]
    apply List.map_congr_left
    intro p _
    simp only [Function.comp, pairFragment, unitIntfs_eq]
  constructor
  · have hf : (fun p : ACLPushItem × ACLEnforcementPoint × Int =>
        decide (p.2.1.DeviceName = d ∧ hasCanaryTag p.2.1.Tags)) = pairIn d true := by
      funext p
      simp [pairIn, pointIn]
    rw [hc, hf]
    exact key true
  · have hf : (fun p : ACLPushItem × ACLEnforcementPoint × Int =>
        decide (p.2.1.DeviceName = d ∧ ¬ hasCanaryTag p.2.1.Tags)) = pairIn d false := by
      funext p
      simp [pairIn, pointIn]
    rw [hg, hf]
    exact key false

/-- C14, on `twoUnitPush` and the device "us1", whose point has two units. -/
theorem loadACL_fragment_intfs_witness :
    loadACL twoUnitPush = some ([], twoUnitGlobal, twoUnitVendor) ∧
    ((GoMap.getD ([] : GoMap (List acl)) "us1" []).map (fun frag => frag.IntfDirection) =
      ((pointPairs 0 twoUnitPush).filter
        (fun p => decide (p.2.1.DeviceName = "us1" ∧ hasCanaryTag p.2.1.Tags))).map
        (fun p => p.2.1.Units.map
          (fun unit => ({ Intf := unit.Name, Direction := unit.Direction } : intfDir))) ∧
    (GoMap.getD twoUnitGlobal "us1" []).map (fun frag => frag.IntfDirection) =
      ((pointPairs 0 twoUnitPush).filter
        (fun p => decide (p.2.1.DeviceName = "us1" ∧ ¬ hasCanaryTag p.2.1.Tags))).map
        (fun p => p.2.1.Units.map
          (fun unit => ({ Intf := unit.Name, Direction := unit.Direction } : intfDir)))) :=
  ⟨twoUnitPush_loadACL,
    loadACL_fragment_intfs twoUnitPush [] twoUnitGlobal twoUnitVendor twoUnitPush_loadACL "us1"⟩

/-! ## Repeated calls and the template -/

theorem PreparePush_get? (parseFiles : String → Option Template) (order : Nat → List Nat)
    (pushPb : List ACLPushItem) (c g : GoMap (List acl)) (v : GoMap String) (t : Template)
    (hl : loadACL pushPb = some (c, g, v))
    (ht : loadTemplate parseFiles "cisco_acl" = some t) :
    ∃ r0 r1 errs, PreparePush parseFiles order pushPb = some ([r0, r1], errs) ∧
      (∀ d, GoMap.get? r0 d =
        if d ∈ GoMap.keys c then some (renderDevice v c t d).1 else none) ∧
      (∀ d, GoMap.get? r1 d =
        if d ∈ GoMap.keys g then some (renderDevice v g t d).1 else none) := by
  refine ⟨_, _, _, PreparePush_eq parseFiles order pushPb c g v t hl ht, ?_, ?_⟩
  · intro d
    rw [foldl_deviceStep_get?]
    by_cases hd : d ∈ GoMap.keys c
    · rw [if_pos hd, if_pos ((rangeOrder_perm (order 0) (GoMap.keys c)).mem_iff.2 hd)]
    · rw [if_neg hd,
        if_neg (fun hm => hd ((rangeOrder_perm (order 0) (GoMap.keys c)).mem_iff.1 hm))]
      rfl
  · intro d
    rw [foldl_deviceStep_get?]
    by_cases hd : d ∈ GoMap.keys g
    · rw [if_pos hd, if_pos ((rangeOrder_perm (order 1) (GoMap.keys g)).mem_iff.2 hd)]
    · rw [if_neg hd,
        if_neg (fun hm => hd ((rangeOrder_perm (order 1) (GoMap.keys g)).mem_iff.1 hm))]
      rfl

theorem PreparePush_eq_none_iff (parseFiles : String → Option Template)
    (order : Nat → List Nat) (pushPb : List ACLPushItem) :
    PreparePush parseFiles order pushPb = none ↔
      loadACL pushPb = none ∨ loadTemplate parseFiles "cisco_acl" = none := by
  cases hl : loadACL pushPb with
  | none =>
    unfold PreparePush
    rw [hl]
    simp
  | some r =>
    obtain ⟨c, g, v⟩ := r
    cases ht : loadTemplate parseFiles "cisco_acl" with
    | none =>
      unfold PreparePush
      rw [hl]
      simp [ht]
    | some t =>
      rw [PreparePush_eq parseFiles order pushPb c g v t hl ht]
      simp

/-- On fragments passed by value, two calls of `PreparePush` on the same items,
with template files that give the same template, return the same two mappings,
whatever the orders in which the two calls visit the devices of the buckets:
both panic or both return two maps that hold the same text for every device. -/
theorem PreparePush_same_mappings (parseFiles1 parseFiles2 : String → Option Template)
    (order1 order2 : Nat → List Nat) (pushPb : List ACLPushItem)
    (ht : loadTemplate parseFiles1 "cisco_acl" = loadTemplate parseFiles2 "cisco_acl") :
    (PreparePush parseFiles1 order1 pushPb = none ↔
      PreparePush parseFiles2 order2 pushPb = none) ∧
    ∀ res1 errs1 res2 errs2,
      PreparePush parseFiles1 order1 pushPb = some (res1, errs1) →
      PreparePush parseFiles2 order2 pushPb = some (res2, errs2) →
        res1.length = 2 ∧ res2.length = 2 ∧
        ∀ (idx : Nat) (d : String),
          GoMap.get? (res1.getD idx []) d = GoMap.get? (res2.getD idx []) d := by
  constructor
  · rw [PreparePush_eq_none_iff, PreparePush_eq_none_iff, ht]
  · intro res1 errs1 res2 errs2 h1 h2
    cases hl : loadACL pushPb with
    | none =>
      have := (PreparePush_eq_none_iff parseFiles1 order1 pushPb).2 (Or.inl hl)
      rw [this] at h1
      exact absurd h1 (by simp)
    | some r =>
      obtain ⟨c, g, v⟩ := r
      cases ht2 : loadTemplate parseFiles2 "cisco_acl" with
      | none =>
        have := (PreparePush_eq_none_iff parseFiles2 order2 pushPb).2 (Or.inr ht2)
        rw [this] at h2
        exact absurd h2 (by simp)
      | some t =>
        have ht1 : loadTemplate parseFiles1 "cisco_acl" = some t := ht.trans ht2
        obtain ⟨a0, a1, ea, ha, ha0, ha1⟩ :=
          PreparePush_get? parseFiles1 order1 pushPb c g v t hl ht1
        obtain ⟨b0, b1, eb, hb, hb0, hb1⟩ :=
          PreparePush_get? parseFiles2 order2 pushPb c g v t hl ht2
        rw [ha] at h1
        rw [hb] at h2
        simp only [Option.some.injEq, Prod.mk.injEq] at h1 h2
        obtain ⟨rfl, -⟩ := h1
        obtain ⟨rfl, -⟩ := h2
        refine ⟨rfl, rfl, ?_⟩
        intro idx d
        match idx with
        | 0 => simp only [List.getD_cons_zero, ha0, hb0]
        | 1 => simp only [List.getD_cons_succ, List.getD_cons_zero, ha1, hb1]
        | n + 2 => simp [List.getD]

/-- C16 as stated fails: on the two juniper items of the test case
"jcl_srx_coexist", on which the classification returns, the call of
`PreparePush` panics when the template file cannot be parsed. -/
theorem PreparePush_unparsed_template_panics :
    (loadACL jclSrxCoexist).isSome = true ∧
    PreparePush noTemplate plainOrder jclSrxCoexist = none := by
  decide

/-- C16, amended: each call of `PreparePush` loads the template "cisco_acl"
itself, after the classification: when the template file cannot be parsed the
call panics for every list of items, and when it parses the call returns
whenever the classification returns, with the texts rendered by the template
loaded at this call. -/
theorem PreparePush_loads_template (parseFiles : String → Option Template)
    (order : Nat → List Nat) (pushPb : List ACLPushItem) :
    (loadTemplate parseFiles "cisco_acl" = none →
      PreparePush parseFiles order pushPb = none) ∧
    (∀ (t : Template) (c g : GoMap (List acl)) (v : GoMap String),
      loadTemplate parseFiles "cisco_acl" = some t → loadACL pushPb = some (c, g, v) →
      ∃ r0 r1 errs, PreparePush parseFiles order pushPb = some ([r0, r1], errs) ∧
        (∀ d ∈ GoMap.keys c,
          GoMap.get? r0 d =
            some (configHandler (GoMap.getD v d "") (GoMap.getD c d []) t).1) ∧
        (∀ d ∈ GoMap.keys g,
          GoMap.get? r1 d =
            some (configHandler (GoMap.getD v d "") (GoMap.getD g d []) t).1)) := by
  constructor
  · intro h
    exact (PreparePush_eq_none_iff parseFiles order pushPb).2 (Or.inr h)
  · intro t c g v ht hl
    obtain ⟨r0, r1, errs, hp, h0, h1⟩ := PreparePush_get? parseFiles order pushPb c g v t hl ht
    refine ⟨r0, r1, errs, hp, ?_, ?_⟩
    · intro d hd
      rw [h0, if_pos hd]
      rfl
    · intro d hd
      rw [h1, if_pos hd]
      rfl

/-- C16, amended, on the empty list of items and template files of which none
parses. -/
theorem PreparePush_loads_template_witness :
    loadTemplate noTemplate "cisco_acl" = none ∧
    PreparePush noTemplate plainOrder [] = none :=
  ⟨rfl, (PreparePush_loads_template noTemplate plainOrder []).1 rfl⟩

/-! ## The removal of "\nexit" as a replacement of all occurrences -/

theorem leftmost_unique (old pre rest pre' rest' : List Char) (hne : old ≠ [])
    (hs : pre ++ old ++ rest = pre' ++ old ++ rest')
    (hno : ¬ old <:+: pre ++ old.dropLast) (hno' : ¬ old <:+: pre' ++ old.dropLast) :
    pre = pre' ∧ rest = rest' := by
  have hlen : 0 < old.length := List.length_pos.2 hne
  have key : ∀ (p q a r r' : List Char), q = p ++ a → old ++ r = a ++ (old ++ r') →
      ¬ old <:+: q ++ old.dropLast → a = [] := by
    intro p q a r r' hq h2 hq'
    by_contra ha
    have hal : 0 < a.length := List.length_pos.2 ha
    have h3 : old <+: a ++ (old ++ r') := ⟨r, h2⟩
    have h4 : a ++ old.dropLast <+: a ++ (old ++ r') :=
      (List.prefix_append_right_inj a).2
        ((List.dropLast_prefix old).trans (List.prefix_append old r'))
    have h5 : old <+: a ++ old.dropLast := by
      apply List.prefix_of_prefix_length_le h3 h4
      simp only [List.length_append, List.length_dropLast]
      omega
    apply hq'
    rw [hq, List.append_assoc]
    exact h5.isInfix.trans (List.suffix_append p _).isInfix
  rw [List.append_assoc, List.append_assoc] at hs
  rcases List.append_eq_append_iff.1 hs with ⟨a, h1, h2⟩ | ⟨a, h1, h2⟩
  · have ha := key pre pre' a rest rest' h1 h2 hno'
    subst ha
    simp only [List.append_nil, List.nil_append] at h1 h2
    exact ⟨h1.symm, List.append_cancel_left h2⟩
  · have ha := key pre' pre a rest' rest h1 h2 hno
    subst ha
    simp only [List.append_nil, List.nil_append] at h1 h2
    exact ⟨h1, (List.append_cancel_left h2).symm⟩

theorem ReplacedAll_unique (old new : List Char) (hne : old ≠ []) (text o1 o2 : List Char)
    (h1 : ReplacedAll old new text o1) (h2 : ReplacedAll old new text o2) : o1 = o2 := by
  induction h1 generalizing o2 with
  | done text hno =>
    cases h2 with
    | done _ _ => rfl
    | step pre rest out _ _ => exact absurd ⟨pre, rest, rfl⟩ hno
  | step pre rest out hno _ ih =>
    generalize hs : pre ++ old ++ rest = s at h2
    cases h2 with
    | done _ hno2 =>
      rw [← hs] at hno2
      exact absurd ⟨pre, rest, rfl⟩ hno2
    | step pre' rest' out' hno' hrec' =>
      obtain ⟨hp, hr⟩ := leftmost_unique old pre rest pre' rest' hne hs hno hno'
      subst hp
      subst hr
      rw [ih out' hrec']

theorem removeExit_replacedAll_aux (n : Nat) :
    ∀ text : List Char, text.length ≤ n → ReplacedAll exitMark [] text (removeExit text) := by
  induction n with
  | zero =>
    intro text hlen
    have : text = [] := List.length_eq_zero.1 (Nat.le_zero.1 hlen)
    subst this
    rw [removeExit_nil]
    exact ReplacedAll.done [] (by decide)
  | succ n ih =>
    intro text hlen
    cases text with
    | nil =>
      rw [removeExit_nil]
      exact ReplacedAll.done [] (by decide)
    | cons c cs =>
      have hlen' : cs.length ≤ n := by
        simp only [List.length_cons] at hlen
        omega
      by_cases hp : exitMark <+: c :: cs
      · rw [removeExit_of_starts _ hp]
        obtain ⟨rest, hrest⟩ := hp
        rw [← hrest]
        have hd : (exitMark ++ rest).drop 5 = rest := by simp [exitMark]
        rw [hd]
        have hl : rest.length ≤ n := by
          have := congrArg List.length hrest
          simp only [List.length_append, List.length_cons, exitMark, List.length_nil] at this
          omega
        have := @ReplacedAll.step exitMark [] [] rest (removeExit rest)
          (by decide : ¬ exitMark <:+: [] ++ exitMark.dropLast) (ih rest hl)
        simpa using this
      · rw [removeExit_cons c cs hp]
        have hrec := ih cs hlen'
        generalize removeExit cs = out at hrec
        cases hrec with
        | done _ hno =>
          apply ReplacedAll.done
          rw [List.infix_cons_iff]
          rintro (h | h)
          · exact hp h
          · exact hno h
        | step pre rest out' hno hrec' =>
          have hno' : ¬ exitMark <:+: (c :: pre) ++ exitMark.dropLast := by
            rw [List.cons_append, List.infix_cons_iff]
            rintro (h | h)
            · apply hp
              refine h.trans ((List.prefix_cons_inj c).2 ?_)
              rw [List.append_assoc]
              exact (List.prefix_append_right_inj pre).2
                ((List.dropLast_prefix exitMark).trans (List.prefix_append exitMark rest))
            · exact hno h
          have := @ReplacedAll.step exitMark [] (c :: pre) rest out' hno' hrec'
          simpa using this

theorem crossFrags_ok :
    ∀ data ∈ [crossFragA, crossFragB], (dataTemplate.ExecuteTemplate "layout" data).2 = none := by
  decide

/-- C17: when the template succeeds on each fragment, `configHandler` returns
for "cisco" a nil error and the text obtained from the concatenation, in list
order, of the texts the template wrote by replacing every non-overlapping
occurrence of "\nexit", scanned left to right, by the empty text; this
determines the text returned, and the replacement is made in the whole
concatenation. -/
theorem configHandler_cisco_replaces_all (aclData : List acl) (aclTmpl : Template)
    (hok : ∀ data ∈ aclData, (aclTmpl.ExecuteTemplate "layout" data).2 = none) :
    (configHandler "cisco" aclData aclTmpl).2 = none ∧
    (templateOutput aclTmpl aclData).data =
      aclData.flatMap (fun data => (aclTmpl.ExecuteTemplate "layout" data).1.data) ∧
    ReplacedAll "\nexit".data "".data (templateOutput aclTmpl aclData).data
      (configHandler "cisco" aclData aclTmpl).1.data ∧
    (∀ out, ReplacedAll "\nexit".data "".data (templateOutput aclTmpl aclData).data out →
      (configHandler "cisco" aclData aclTmpl).1.data = out) := by
  have hr : ReplacedAll "\nexit".data "".data (templateOutput aclTmpl aclData).data
      (configHandler "cisco" aclData aclTmpl).1.data := by
    unfold configHandler
    rw [configHandlerRun_cisco_ok aclTmpl aclData hok]
    simp only
    rw [Replace_exit_data]
    exact removeExit_replacedAll_aux _ _ (Nat.le_refl _)
  refine ⟨?_, ?_, hr, ?_⟩
  · unfold configHandler
    rw [configHandlerRun_cisco_ok aclTmpl aclData hok]
  · unfold templateOutput
    rw [join_data, List.flatMap_map]
  · intro out hout
    exact ReplacedAll_unique "\nexit".data "".data (by decide) _ _ _ hr hout

/-- C17, on two fragments of which the first ends with "\nex" and the second
starts with "it": the occurrence of "\nexit" across their boundary is removed. -/
theorem configHandler_cisco_replaces_all_witness :
    (∀ data ∈ [crossFragA, crossFragB],
      (dataTemplate.ExecuteTemplate "layout" data).2 = none) ∧
    configHandler "cisco" [crossFragA, crossFragB] dataTemplate = ("a\nb", none) ∧
    ((configHandler "cisco" [crossFragA, crossFragB] dataTemplate).2 = none ∧
    (templateOutput dataTemplate [crossFragA, crossFragB]).data =
      [crossFragA, crossFragB].flatMap
        (fun data => (dataTemplate.ExecuteTemplate "layout" data).1.data) ∧
    ReplacedAll "\nexit".data "".data (templateOutput dataTemplate [crossFragA, crossFragB]).data
      (configHandler "cisco" [crossFragA, crossFragB] dataTemplate).1.data ∧
    (∀ out,
      ReplacedAll "\nexit".data "".data
        (templateOutput dataTemplate [crossFragA, crossFragB]).data out →
      (configHandler "cisco" [crossFragA, crossFragB] dataTemplate).1.data = out)) :=
  ⟨crossFrags_ok, by decide,
    configHandler_cisco_replaces_all [crossFragA, crossFragB] dataTemplate crossFrags_ok⟩

/-! ## The IP version of a fragment -/

/-- C18 fails on the code: the fragment of the item `ipCarrySecond`, supplied
without an IP version, has the IP version 0 when the item is alone and the IP
version 6 of the item before it when it follows `ipCarryFirst`. -/
theorem loadACL_ipVersion_carried :
    ipCarrySecond.IpVersion = none ∧
    loadACL [ipCarrySecond] =
      some (([] : GoMap (List acl)), [("r2", [ipCarryFrag 0])], [("r2", "juniper")]) ∧
    loadACL [ipCarryFirst, ipCarrySecond] =
      some (([] : GoMap (List acl)),
        [("r1", [{ Name := "v6", IPVersion := 6, Data := "permit ipv6 any any\n",
                   IntfDirection := [] }]),
         ("r2", [ipCarryFrag 6])],
        [("r1", "cisco"), ("r2", "juniper")]) := by
  refine ⟨rfl, ?_, ?_⟩ <;> decide

/-! ## Devices named by items of different vendors -/

theorem loadACL_get?_vendor (pushPb : List ACLPushItem)
    (c g : GoMap (List acl)) (v : GoMap String) (h : loadACL pushPb = some (c, g, v))
    (d : String) :
    GoMap.get? v d =
      ((pushPb.filter (fun item => decide (namesDevice d item))).getLast?).map
        (fun item => item.Vendor) := by
  obtain ⟨-, -, hv⟩ := loadACL_some pushPb c g v h
  rw [hv, foldl_pointPairs_vendor]
  simp [emptyMaps, GoMap.get?]

theorem configHandler_juniper_eq (aclData : List acl) (aclTmpl : Template) :
    configHandler "juniper" aclData aclTmpl =
      (String.join (aclData.map (fun data => data.Data)), none) := by
  unfold configHandler configHandlerRun
  rw [if_neg (by decide), if_pos rfl, juniperLoop_eq]
  simp

/-- C19: when `loadACL` returns and the template file parses, the text of a
device in either ring is the one `configHandler` returns for the vendor of the
last item, in input order, that names the device, applied to all fragments of
the device in that ring; when that vendor is "juniper" the text is the
concatenation of the raw data of these fragments, whatever the vendors of the
items they come from, and the renders of the device return no error. -/
theorem PreparePush_last_vendor_renders (parseFiles : String → Option Template)
    (order : Nat → List Nat) (pushPb : List ACLPushItem) (c g : GoMap (List acl))
    (v : GoMap String) (t : Template)
    (hl : loadACL pushPb = some (c, g, v))
    (ht : loadTemplate parseFiles "cisco_acl" = some t)
    (d : String) (item : ACLPushItem)
    (hlast : (pushPb.filter (fun it => decide (namesDevice d it))).getLast? = some item) :
    ∃ r0 r1 errs, PreparePush parseFiles order pushPb = some ([r0, r1], errs) ∧
      (d ∈ GoMap.keys c →
        GoMap.get? r0 d = some (configHandler item.Vendor (GoMap.getD c d []) t).1) ∧
      (d ∈ GoMap.keys g →
        GoMap.get? r1 d = some (configHandler item.Vendor (GoMap.getD g d []) t).1) ∧
      (item.Vendor = "juniper" →
        (d ∈ GoMap.keys c →
          GoMap.get? r0 d =
            some (String.join ((GoMap.getD c d []).map (fun frag => frag.Data)))) ∧
        (d ∈ GoMap.keys g →
          GoMap.get? r1 d =
            some (String.join ((GoMap.getD g d []).map (fun frag => frag.Data)))) ∧
        (configHandler (GoMap.getD v d "") (GoMap.getD c d []) t).2 = none ∧
        (configHandler (GoMap.getD v d "") (GoMap.getD g d []) t).2 = none) := by
  have hv : GoMap.getD v d "" = item.Vendor := by
    unfold GoMap.getD
    rw [loadACL_get?_vendor pushPb c g v hl d, hlast]
    rfl
  obtain ⟨r0, r1, errs, hp, h0, h1⟩ := PreparePush_get? parseFiles order pushPb c g v t hl ht
  have e0 : d ∈ GoMap.keys c →
      GoMap.get? r0 d = some (configHandler item.Vendor (GoMap.getD c d []) t).1 := by
    intro hd
    rw [h0, if_pos hd, renderDevice, hv]
  have e1 : d ∈ GoMap.keys g →
      GoMap.get? r1 d = some (configHandler item.Vendor (GoMap.getD g d []) t).1 := by
    intro hd
    rw [h1, if_pos hd, renderDevice, hv]
  refine ⟨r0, r1, errs, hp, e0, e1, ?_⟩
  intro hj
  refine ⟨?_, ?_, ?_, ?_⟩
  · intro hd
    rw [e0 hd, hj, configHandler_juniper_eq]
  · intro hd
    rw [e1 hd, hj, configHandler_juniper_eq]
  · rw [hv, hj, configHandler_juniper_eq]
  · rw [hv, hj, configHandler_juniper_eq]

/-- C19, on `mixedPush` and the device "r1", named by the cisco item and then
by the juniper item. -/
theorem PreparePush_last_vendor_renders_witness :
    (loadACL mixedPush = some (mixedCanary, mixedGlobal, mixedVendor) ∧
      loadTemplate (onlyCiscoACL lineTemplate) "cisco_acl" = some lineTemplate ∧
      (mixedPush.filter (fun it => decide (namesDevice "r1" it))).getLast? =
        some (mixedPush.getD 1 dotlessItem)) ∧
    ∃ r0 r1 errs,
      PreparePush (onlyCiscoACL lineTemplate) swapOrder mixedPush = some ([r0, r1], errs) ∧
      ("r1" ∈ GoMap.keys mixedCanary →
        GoMap.get? r0 "r1" =
          some (configHandler (mixedPush.getD 1 dotlessItem).Vendor
            (GoMap.getD mixedCanary "r1" []) lineTemplate).1) ∧
      ("r1" ∈ GoMap.keys mixedGlobal →
        GoMap.get? r1 "r1" =
          some (configHandler (mixedPush.getD 1 dotlessItem).Vendor
            (GoMap.getD mixedGlobal "r1" []) lineTemplate).1) ∧
      ((mixedPush.getD 1 dotlessItem).Vendor = "juniper" →
        ("r1" ∈ GoMap.keys mixedCanary →
          GoMap.get? r0 "r1" =
            some (String.join ((GoMap.getD mixedCanary "r1" []).map (fun frag => frag.Data)))) ∧
        ("r1" ∈ GoMap.keys mixedGlobal →
          GoMap.get? r1 "r1" =
            some (String.join ((GoMap.getD mixedGlobal "r1" []).map (fun frag => frag.Data)))) ∧
        (configHandler (GoMap.getD mixedVendor "r1" "")
          (GoMap.getD mixedCanary "r1" []) lineTemplate).2 = none ∧
        (configHandler (GoMap.getD mixedVendor "r1" "")
          (GoMap.getD mixedGlobal "r1" []) lineTemplate).2 = none) :=
  ⟨⟨mixedPush_loadACL, onlyCiscoACL_load lineTemplate, by decide⟩,
    PreparePush_last_vendor_renders (onlyCiscoACL lineTemplate) swapOrder mixedPush
      mixedCanary mixedGlobal mixedVendor lineTemplate
      mixedPush_loadACL (onlyCiscoACL_load lineTemplate) "r1" (mixedPush.getD 1 dotlessItem)
      (by decide)⟩

/-! ## Keys of the three maps -/

theorem foldl_placePair_mem_vendor_keys (ps : List (ACLPushItem × ACLEnforcementPoint × Int))
    (m : ACLMaps) (d : String) :
    d ∈ GoMap.keys (ps.foldl placePair m).vendorMap ↔
      d ∈ GoMap.keys m.vendorMap ∨ ∃ p ∈ ps, p.2.1.DeviceName = d := by
  induction ps generalizing m with
  | nil => simp
  | cons p ps ih =>
    rw [List.foldl_cons, ih, placePair_vendorMap, GoMap.mem_keys_set]
    simp only [List.mem_cons, exists_eq_or_imp]
    constructor
    · rintro ((h | h) | h)
      · exact Or.inr (Or.inl h.symm)
      · exact Or.inl h
      · exact Or.inr (Or.inr h)
    · rintro (h | h | h)
      · exact Or.inl (Or.inr h)
      · exact Or.inl (Or.inl h.symm)
      · exact Or.inr h

theorem pairIn_device (d : String) (ring : Bool)
    (p : ACLPushItem × ACLEnforcementPoint × Int) (h : pairIn d ring p = true) :
    p.2.1.DeviceName = d := by
  simp only [pairIn, pointIn, Bool.and_eq_true, decide_eq_true_eq] at h
  exact h.1

/-- C20: when `loadACL` returns, every device key of the canary map and of the
global map has a non-empty fragment list and is a key of the vendor map, and
every key of the vendor map is a key of the canary map or of the global map;
so the vendor lookup for a device of either bucket finds an entry. -/
theorem loadACL_keys_invariant (pushPb : List ACLPushItem)
    (c g : GoMap (List acl)) (v : GoMap String) (h : loadACL pushPb = some (c, g, v)) :
    (∀ d ∈ GoMap.keys c, GoMap.getD c d [] ≠ [] ∧ d ∈ GoMap.keys v) ∧
    (∀ d ∈ GoMap.keys g, GoMap.getD g d [] ≠ [] ∧ d ∈ GoMap.keys v) ∧
    (∀ d ∈ GoMap.keys v, d ∈ GoMap.keys c ∨ d ∈ GoMap.keys g) ∧
    (∀ d, d ∈ GoMap.keys c ∨ d ∈ GoMap.keys g → (GoMap.get? v d).isSome = true) := by
  obtain ⟨hc, hg, hv⟩ := loadACL_some pushPb c g v h
  have hb : ∀ ring : Bool, ∀ d ∈ GoMap.keys
      (bucket ((pointPairs 0 pushPb).foldl placePair emptyMaps) ring),
      GoMap.getD (bucket ((pointPairs 0 pushPb).foldl placePair emptyMaps) ring) d [] ≠ [] ∧
      d ∈ GoMap.keys ((pointPairs 0 pushPb).foldl placePair emptyMaps).vendorMap := by
    intro ring d hd
    rw [foldl_placePair_mem_keys] at hd
    have h0 : d ∉ GoMap.keys (bucket emptyMaps ring) := by
      cases ring <;> simp [bucket, emptyMaps, GoMap.keys]
    rcases hd with hd | ⟨p, hp, hin⟩
    · exact absurd hd h0
    · constructor
      · rw [foldl_placePair_getD]
        intro hnil
        have hmem : pairFragment p ∈
            GoMap.getD (bucket emptyMaps ring) d [] ++
              ((pointPairs 0 pushPb).filter (pairIn d ring)).map pairFragment :=
          List.mem_append_right _
            (List.mem_map.2 ⟨p, List.mem_filter.2 ⟨hp, hin⟩, rfl⟩)
        rw [hnil] at hmem
        exact absurd hmem (List.not_mem_nil _)
      · rw [foldl_placePair_mem_vendor_keys]
        exact Or.inr ⟨p, hp, pairIn_device d ring p hin⟩
  have hk : ∀ d ∈ GoMap.keys v, d ∈ GoMap.keys c ∨ d ∈ GoMap.keys g := by
    intro d hd
    rw [hv, foldl_placePair_mem_vendor_keys] at hd
    rcases hd with hd | ⟨p, hp, hdev⟩
    · exact absurd hd (by simp [emptyMaps, GoMap.keys])
    · by_cases hcan : hasCanaryTag p.2.1.Tags
      · left
        rw [hc, foldl_placePair_mem_keys]
        exact Or.inr ⟨p, hp, by simp [pairIn, pointIn, hdev, hcan]⟩
      · right
        rw [hg, foldl_placePair_mem_keys]
        exact Or.inr ⟨p, hp, by simp [pairIn, pointIn, hdev, hcan]⟩
  refine ⟨?_, ?_, hk, ?_⟩
  · intro d hd
    rw [hc] at hd ⊢
    rw [hv]
    exact hb true d hd
  · intro d hd
    rw [hg] at hd ⊢
    rw [hv]
    exact hb false d hd
  · intro d hd
    rw [GoMap.isSome_get?_iff]
    rcases hd with hd | hd
    · rw [hc] at hd
      rw [hv]
      exact (hb true d hd).2
    · rw [hg] at hd
      rw [hv]
      exact (hb false d hd).2

/-- C20, on `mixedPush`. -/
theorem loadACL_keys_invariant_witness :
    loadACL mixedPush = some (mixedCanary, mixedGlobal, mixedVendor) ∧
    ((∀ d ∈ GoMap.keys mixedCanary,
      GoMap.getD mixedCanary d [] ≠ [] ∧ d ∈ GoMap.keys mixedVendor) ∧
    (∀ d ∈ GoMap.keys mixedGlobal,
      GoMap.getD mixedGlobal d [] ≠ [] ∧ d ∈ GoMap.keys mixedVendor) ∧
    (∀ d ∈ GoMap.keys mixedVendor, d ∈ GoMap.keys mixedCanary ∨ d ∈ GoMap.keys mixedGlobal) ∧
    (∀ d, d ∈ GoMap.keys mixedCanary ∨ d ∈ GoMap.keys mixedGlobal →
      (GoMap.get? mixedVendor d).isSome = true)) :=
  ⟨mixedPush_loadACL,
    loadACL_keys_invariant mixedPush mixedCanary mixedGlobal mixedVendor mixedPush_loadACL⟩

/-! ## Repeated calls and the addresses of the fragments -/

theorem entriesAt_snd (entry : Nat → Nat) (i : Nat) (l : List intfDir) :
    (entriesAt entry i l).map Prod.snd = l := by
  induction l generalizing i with
  | nil => rfl
  | cons x xs ih => simp [entriesAt, ih]

theorem fragAt_val (a : FragAddrs) (frag : acl) : (fragAt a frag).val = frag := by
  simp [fragAt, aclPtr.val, entriesAt_snd]

theorem fragsAt_val (heap : Nat → FragAddrs) (k : Nat) (l : List acl) :
    (fragsAt heap k l).map aclPtr.val = l := by
  induction l generalizing k with
  | nil => rfl
  | cons frag rest ih => simp [fragsAt, fragAt_val, ih]

theorem onValues_exec (t : PtrTemplate) (ht : valueOnly t) (name : String) (p : aclPtr) :
    t.onValues.ExecuteTemplate name p.val = t.ExecuteTemplate name p :=
  ht name _ _ (fragAt_val _ _)

theorem onPointers_valueOnly (t : Template) : valueOnly t.onPointers := by
  intro name p q h
  simp only [Template.onPointers, h]

theorem ciscoLoopPtr_eq (t : PtrTemplate) (ht : valueOnly t) (ps : List aclPtr) (b : String)
    (executed : List acl) :
    ciscoLoopPtr t ps b = (ciscoLoop t.onValues (ps.map aclPtr.val) b executed).1 := by
  induction ps generalizing b executed with
  | nil => rfl
  | cons p ps ih =>
    rw [List.map_cons]
    unfold ciscoLoopPtr ciscoLoop
    rw [onValues_exec t ht]
    rcases t.ExecuteTemplate "layout" p with ⟨out, _ | err⟩
    · exact ih _ _
    · rfl

theorem juniperLoopPtr_eq (ps : List aclPtr) (b : String) :
    juniperLoopPtr ps b = juniperLoop (ps.map aclPtr.val) b := by
  induction ps generalizing b with
  | nil => rfl
  | cons p ps ih =>
    rw [List.map_cons]
    unfold juniperLoopPtr juniperLoop
    exact ih _

theorem configHandlerPtr_eq (vendor : String) (t : PtrTemplate) (ht : valueOnly t)
    (ps : List aclPtr) :
    configHandlerPtr vendor ps t = configHandler vendor (ps.map aclPtr.val) t.onValues := by
  unfold configHandlerPtr configHandler configHandlerRun
  by_cases hc : vendor = "cisco"
  · rw [if_pos hc, if_pos hc, ciscoLoopPtr_eq t ht ps "" []]
    rcases ciscoLoop t.onValues (ps.map aclPtr.val) "" [] with ⟨_ | _, executed⟩ <;> rfl
  · rw [if_neg hc, if_neg hc]
    by_cases hj : vendor = "juniper"
    · rw [if_pos hj, if_pos hj, juniperLoopPtr_eq]
    · rw [if_neg hj, if_neg hj]

theorem deviceStepPtr_eq (vendorMap : GoMap String) (aclMap : GoMap (List acl))
    (t : PtrTemplate) (ht : valueOnly t) (heap : String → Nat → FragAddrs) :
    deviceStepPtr vendorMap aclMap t heap = deviceStep vendorMap aclMap t.onValues := by
  funext st dev
  unfold deviceStepPtr deviceStep
  rw [configHandlerPtr_eq _ t ht, fragsAt_val]

theorem PreparePushPtr_eq (parseFiles : String → Option PtrTemplate)
    (heap : Nat → String → Nat → FragAddrs) (order : Nat → List Nat)
    (pushPb : List ACLPushItem)
    (hval : ∀ t, loadTemplatePtr parseFiles "cisco_acl" = some t → valueOnly t) :
    PreparePushPtr parseFiles heap order pushPb =
      PreparePush (fun file => (parseFiles file).map PtrTemplate.onValues) order pushPb := by
  unfold PreparePushPtr PreparePush loadTemplate
  cases hl : loadACL pushPb with
  | none => rfl
  | some r =>
    obtain ⟨c, g, v⟩ := r
    cases hp : loadTemplatePtr parseFiles "cisco_acl" with
    | none =>
      have hp' : parseFiles ("cisco_acl" ++ ".tmpl") = none := hp
      simp only [hp', Option.map_none']
    | some t =>
      have hp' : parseFiles ("cisco_acl" ++ ".tmpl") = some t := hp
      have hd : ∀ (aclMap : GoMap (List acl)) (idx : Nat),
          deviceStepPtr v aclMap t (heap idx) = deviceStep v aclMap t.onValues :=
        fun aclMap idx => deviceStepPtr_eq v aclMap t (hval t hp) (heap idx)
      have hr : ringStepPtr v [c, g] t heap order = ringStep v [c, g] t.onValues order := by
        funext st idx
        simp only [ringStepPtr, ringStep, hd]
      simp only [hp', Option.map_some', hr]

theorem addrTemplate_first :
    PreparePushPtr (onlyCiscoACLPtr addrTemplate) heapFirst plainOrder twoUnitPush =
      some ([[], [("us1", "[53280 53296]"), ("us2", "[]")]], []) := by
  decide

theorem addrTemplate_second :
    PreparePushPtr (onlyCiscoACLPtr addrTemplate) heapSecond plainOrder twoUnitPush =
      some ([[], [("us1", "[86048 86064]"), ("us2", "[]")]], []) := by
  decide

/-- C15 as stated fails: with the one template that prints the field
`IntfDirection`, two calls of `PreparePush` on `twoUnitPush`, in the same order
of visit, return different texts for the device "us1" when the second call has
its fragments at other addresses than the first: the slice holds pointers,
which are printed as addresses. -/
theorem PreparePushPtr_addresses_differ :
    PreparePushPtr (onlyCiscoACLPtr addrTemplate) heapFirst plainOrder twoUnitPush =
      some ([[], [("us1", "[53280 53296]"), ("us2", "[]")]], []) ∧
    PreparePushPtr (onlyCiscoACLPtr addrTemplate) heapSecond plainOrder twoUnitPush =
      some ([[], [("us1", "[86048 86064]"), ("us2", "[]")]], []) ∧
    PreparePushPtr (onlyCiscoACLPtr addrTemplate) heapFirst plainOrder twoUnitPush ≠
      PreparePushPtr (onlyCiscoACLPtr addrTemplate) heapSecond plainOrder twoUnitPush := by
  refine ⟨addrTemplate_first, addrTemplate_second, ?_⟩
  rw [addrTemplate_first, addrTemplate_second]
  decide

/-- C15, amended: when the template files of two calls give the same template
and its output depends on the values of the fragment only, not on the
addresses, the two calls of `PreparePush` on the same items return the same
two mappings, whatever the addresses at which each call has its fragments and
whatever the orders in which they visit the devices: both panic or both return
two maps that hold the same text for every device. -/
theorem PreparePushPtr_same_mappings (parseFiles1 parseFiles2 : String → Option PtrTemplate)
    (heap1 heap2 : Nat → String → Nat → FragAddrs) (order1 order2 : Nat → List Nat)
    (pushPb : List ACLPushItem)
    (ht : loadTemplatePtr parseFiles1 "cisco_acl" = loadTemplatePtr parseFiles2 "cisco_acl")
    (hval : ∀ t, loadTemplatePtr parseFiles1 "cisco_acl" = some t → valueOnly t) :
    (PreparePushPtr parseFiles1 heap1 order1 pushPb = none ↔
      PreparePushPtr parseFiles2 heap2 order2 pushPb = none) ∧
    ∀ res1 errs1 res2 errs2,
      PreparePushPtr parseFiles1 heap1 order1 pushPb = some (res1, errs1) →
      PreparePushPtr parseFiles2 heap2 order2 pushPb = some (res2, errs2) →
        res1.length = 2 ∧ res2.length = 2 ∧
        ∀ (idx : Nat) (d : String),
          GoMap.get? (res1.getD idx []) d = GoMap.get? (res2.getD idx []) d := by
  have hval2 : ∀ t, loadTemplatePtr parseFiles2 "cisco_acl" = some t → valueOnly t := by
    intro t h
    exact hval t (ht.trans h)
  rw [PreparePushPtr_eq parseFiles1 heap1 order1 pushPb hval,
    PreparePushPtr_eq parseFiles2 heap2 order2 pushPb hval2]
  apply PreparePush_same_mappings
  have h1 : parseFiles1 ("cisco_acl" ++ ".tmpl") = parseFiles2 ("cisco_acl" ++ ".tmpl") := ht
  simp only [loadTemplate, h1]

/-- C15, amended, on `mixedPush` with `lineTemplate`, which reads the values
only, two different heaps and two different orders of visit. -/
theorem PreparePushPtr_same_mappings_witness :
    (loadTemplatePtr (onlyCiscoACLPtr lineTemplate.onPointers) "cisco_acl" =
        loadTemplatePtr (onlyCiscoACLPtr lineTemplate.onPointers) "cisco_acl" ∧
      (∀ t, loadTemplatePtr (onlyCiscoACLPtr lineTemplate.onPointers) "cisco_acl" = some t →
        valueOnly t)) ∧
    ((PreparePushPtr (onlyCiscoACLPtr lineTemplate.onPointers) heapFirst swapOrder mixedPush
        = none ↔
      PreparePushPtr (onlyCiscoACLPtr lineTemplate.onPointers) heapSecond plainOrder mixedPush
        = none) ∧
    ∀ res1 errs1 res2 errs2,
      PreparePushPtr (onlyCiscoACLPtr lineTemplate.onPointers) heapFirst swapOrder mixedPush
        = some (res1, errs1) →
      PreparePushPtr (onlyCiscoACLPtr lineTemplate.onPointers) heapSecond plainOrder mixedPush
        = some (res2, errs2) →
        res1.length = 2 ∧ res2.length = 2 ∧
        ∀ (idx : Nat) (d : String),
          GoMap.get? (res1.getD idx []) d = GoMap.get? (res2.getD idx []) d) :=
  have hv : ∀ t, loadTemplatePtr (onlyCiscoACLPtr lineTemplate.onPointers) "cisco_acl" = some t →
      valueOnly t := by
    intro t h
    have h' : some lineTemplate.onPointers = some t := h
    rw [← Option.some.inj h']
    exact onPointers_valueOnly lineTemplate
  ⟨⟨rfl, hv⟩,
    PreparePushPtr_same_mappings (onlyCiscoACLPtr lineTemplate.onPointers)
      (onlyCiscoACLPtr lineTemplate.onPointers) heapFirst heapSecond swapOrder plainOrder
      mixedPush rfl hv⟩

end Render
